import Mathlib

/-!
A shallow embedding of the vtquery nearest-feature query engine
(src/src/vtquery.cpp) and proofs about its result-set semantics.

Modelling conventions:
- `double` values (distances in meters, coordinates, radii) are modelled by `ℚ`.
- The sentinel distance of a default-constructed `ResultObject`
  (`std::numeric_limits<double>::max()`) is modelled by `none : Option ℚ`;
  a computed candidate distance is always `some m`.  This is faithful because
  every candidate distance produced by the haversine formula is far below
  `DBL_MAX`, so `meters < DBL_MAX` always holds and `DBL_MAX < DBL_MAX` never does.
- The external collaborators (MVT decoding, gzip, the closest-point kernel and
  the geographic transforms of util.hpp) are out of scope of the repository
  source; each decoded feature therefore carries the values the driver observes
  from them: its wire geometry type, id, property list, the closest-point
  distance in tile units, and the snap lon/lat with its haversine distance.
- `std::stable_sort` is modelled by stable insertion sort: a stable sort is
  extensionally unique (sorted output, ties in input order), so any correct
  implementation of `std::stable_sort` computes this function.
-/

namespace VectorTileQuery

/-- The `GeomType` enum of vtquery.cpp: point=0, linestring=1, polygon=2, all=3, unknown=4. -/
inductive GeomType
  | point
  | linestring
  | polygon
  | all
  | unknown
deriving DecidableEq

/-- Numeric value of the C++ enum constant. -/
def GeomType.toIdx : GeomType → Nat
  | .point => 0
  | .linestring => 1
  | .polygon => 2
  | .all => 3
  | .unknown => 4

/-- The 4-element `GeomTypeStrings` array of vtquery.cpp. -/
def GeomTypeStrings : List String := ["point", "linestring", "polygon", "unknown"]

/-- `getGeomTypeString` indexes `GeomTypeStrings` with an enum value; `none` models an
out-of-bounds read (undefined behaviour in the C++). -/
def getGeomTypeString (enumVal : Nat) : Option String := GeomTypeStrings.get? enumVal

/-- The wire geometry type reported by the tile decoder (`vtzero::GeomType`). -/
inductive VtGeomType
  | UNKNOWN
  | POINT
  | LINESTRING
  | POLYGON
deriving DecidableEq

/-- Transcription of `get_geometry_type` (vtquery.cpp lines 153-174): map the decoder
geometry type onto the engine enum, defaulting to `unknown`. -/
def get_geometry_type (f : VtGeomType) : GeomType :=
  match f with
  | .POINT => GeomType.point
  | .LINESTRING => GeomType.linestring
  | .POLYGON => GeomType.polygon
  | .UNKNOWN => GeomType.unknown

/-- A decoded MVT property value: tagged union over bool, i64, u64, f64 (modelled by ℚ)
and string, as produced by `vtzero::convert_property_value` with the
`mapbox::vector_tile` mapping. -/
inductive PropValue
  | boolVal (v : Bool)
  | intVal (v : ℤ)
  | uintVal (v : ℕ)
  | doubleVal (v : ℚ)
  | strVal (v : String)
deriving DecidableEq

/-- One key/value pair of a feature property list (a `vtzero::property`). -/
abbrev Property := String × PropValue

/-- Transcription of `struct ResultObject` (vtquery.cpp lines 34-51). -/
structure ResultObject where
  properties_vector : List Property
  properties_vector_materialized : List Property
  layer_name : String
  coordinates : ℚ × ℚ
  distance : Option ℚ
  original_geometry_type : GeomType
  has_id : Bool
  id : ℕ
deriving DecidableEq

/-- The default `ResultObject` constructor: coordinates (0,0), sentinel distance,
geometry type `unknown`, no id, empty property vectors. -/
def defaultResult : ResultObject :=
  { properties_vector := []
    properties_vector_materialized := []
    layer_name := ""
    coordinates := (0, 0)
    distance := none
    original_geometry_type := GeomType.unknown
    has_id := false
    id := 0 }

/-- Strict comparison of two slot distances, `none` standing for the `DBL_MAX` sentinel. -/
def distLt : Option ℚ → Option ℚ → Bool
  | some a, some b => a < b
  | some _, none => true
  | none, _ => false

/-- Non-strict comparison of two slot distances (`DBL_MAX <= DBL_MAX` holds). -/
def distLe : Option ℚ → Option ℚ → Bool
  | some a, some b => a ≤ b
  | some _, none => true
  | none, some _ => false
  | none, none => true

/-- Transcription of `struct CompareDistance` (vtquery.cpp lines 176-180). -/
def CompareDistance (r1 r2 : ResultObject) : Bool :=
  distLt r1.distance r2.distance

/-- Transcription of `insert_result` (vtquery.cpp lines 183-199): overwrite every
payload field of an existing slot with the candidate data (the materialized
vector is not touched). -/
def insert_result (old_result : ResultObject) (props_vec : List Property)
    (layer_name : String) (pt : ℚ × ℚ) (distance : ℚ) (geom_type : GeomType)
    (has_id : Bool) (id : ℕ) : ResultObject :=
  { old_result with
    properties_vector := props_vec
    layer_name := layer_name
    coordinates := pt
    distance := some distance
    original_geometry_type := geom_type
    has_id := has_id
    id := id }

/-- Transcription of `value_is_duplicate` (vtquery.cpp lines 212-235). -/
def value_is_duplicate (r : ResultObject) (candidate_has_id : Bool) (candidate_id : ℕ)
    (candidate_layer : String) (candidate_geom : GeomType)
    (candidate_props_vec : List Property) : Bool :=
  if r.layer_name ≠ candidate_layer then false
  else if r.original_geometry_type ≠ candidate_geom then false
  else if r.has_id ∧ candidate_has_id ∧ r.id ≠ candidate_id then false
  else r.properties_vector = candidate_props_vec

/-- Stable insertion of a result before the first strictly farther entry
(so after every entry at equal or smaller distance). -/
def insertBefore (x : ResultObject) : List ResultObject → List ResultObject
  | [] => [x]
  | y :: ys => if CompareDistance x y then x :: y :: ys else y :: insertBefore x ys

/-- Model of `std::stable_sort(results_queue_.begin(), results_queue_.end(),
CompareDistance())`: stable insertion sort, the unique stable sorting function. -/
def stable_sort (l : List ResultObject) : List ResultObject :=
  l.foldl (fun acc x => insertBefore x acc) []

/-- The data the query driver observes for one decoded feature.  The last three
fields record the outputs of the external closest-point kernel and geographic
transforms for this feature: `cp_distance` is `closest_point(...).distance`
in tile units, `snap_ll` is `convert_vt_to_ll` applied to the snap point and
`snap_meters` is `distance_in_meters` from the query point to `snap_ll`. -/
structure FeatureData where
  vt_geom_type : VtGeomType
  has_id : Bool
  id : ℕ
  props : List Property
  cp_distance : ℚ
  snap_ll : ℚ × ℚ
  snap_meters : ℚ
deriving DecidableEq

/-- A decoded layer: its name together with its features in decode order. -/
structure LayerData where
  name : String
  features : List FeatureData
deriving DecidableEq

/-- A decoded tile: its layers in decode order. -/
abbrev TileData := List LayerData

/-- Transcription of `struct QueryData` (vtquery.cpp lines 91-119), carrying the tiles
already decoded. -/
structure QueryData where
  tiles : List TileData
  layers : List String
  latitude : ℚ
  longitude : ℚ
  radius : ℚ
  num_results : ℕ
  dedupe : Bool
  geometry_filter_type : GeomType

/-- The lon/lat the driver stores for a candidate (vtquery.cpp lines 310-315):
the original query point for a direct hit, otherwise the converted snap point. -/
def computed_ll (data : QueryData) (feature : FeatureData) : ℚ × ℚ :=
  if 0 < feature.cp_distance then feature.snap_ll else (data.longitude, data.latitude)

/-- The meter distance the driver stores for a candidate (vtquery.cpp lines 310-317):
0 for a direct hit, otherwise the recomputed haversine distance to the snap point. -/
def computed_meters (feature : FeatureData) : ℚ :=
  if 0 < feature.cp_distance then feature.snap_meters else 0

/-- The dedupe scan of `Worker::Execute` (vtquery.cpp lines 329-341): when dedupe is
on, the index of the first entry of the queue that `value_is_duplicate` accepts. -/
def dup_find (data : QueryData) (layer_name : String)
    (results_queue : List ResultObject) (feature : FeatureData) : Option ℕ :=
  if data.dedupe then
    results_queue.findIdx? fun result =>
      value_is_duplicate result feature.has_id feature.id layer_name
        (get_geometry_type feature.vt_geom_type) feature.props
  else none

/-- Transcription of the per-feature body of `Worker::Execute`
(vtquery.cpp lines 294-356): geometry filter, negative-distance safety check,
direct-hit shortcut, radius cutoff, dedupe scan and bounded insertion. -/
def process_feature (data : QueryData) (layer_name : String)
    (results_queue : List ResultObject) (feature : FeatureData) : List ResultObject :=
  if data.geometry_filter_type ≠ GeomType.all ∧
      data.geometry_filter_type ≠ get_geometry_type feature.vt_geom_type then
    results_queue
  else if feature.cp_distance < 0 then
    results_queue
  else if data.radius < computed_meters feature then
    results_queue
  else
    match dup_find data layer_name results_queue feature with
    | some i =>
      if distLe (some (computed_meters feature))
          (results_queue.getD i defaultResult).distance then
        stable_sort (results_queue.set i
          (insert_result (results_queue.getD i defaultResult) feature.props layer_name
            (computed_ll data feature) (computed_meters feature)
            (get_geometry_type feature.vt_geom_type) feature.has_id feature.id))
      else
        results_queue
    | none =>
      if distLt (some (computed_meters feature))
          ((results_queue.getLast?).getD defaultResult).distance then
        stable_sort (results_queue.dropLast ++
          [insert_result ((results_queue.getLast?).getD defaultResult) feature.props
            layer_name (computed_ll data feature) (computed_meters feature)
            (get_geometry_type feature.vt_geom_type) feature.has_id feature.id])
      else
        results_queue

/-- The result queue as first filled by `Worker::Execute` (vtquery.cpp lines 252-256):
`num_results` default slots. -/
def initial_queue (data : QueryData) : List ResultObject :=
  List.replicate data.num_results defaultResult

/-- Per-layer body of `Worker::Execute` (vtquery.cpp lines 279-357): skip layers not in
a non-empty layer filter, then fold over the features. -/
def process_layer (data : QueryData) (rq : List ResultObject) (layer : LayerData) :
    List ResultObject :=
  if data.layers ≠ [] ∧ layer.name ∉ data.layers then rq
  else layer.features.foldl (fun rq f => process_feature data layer.name rq f) rq

/-- Per-tile body of `Worker::Execute`: fold over the layers of a tile. -/
def process_tile (data : QueryData) (rq : List ResultObject) (tile : TileData) :
    List ResultObject :=
  tile.foldl (process_layer data) rq

/-- The materialization pass at the end of `Worker::Execute` (vtquery.cpp lines
363-369): copy each surviving property list into the owned container. -/
def materialize (r : ResultObject) : ResultObject :=
  { r with properties_vector_materialized := r.properties_vector }

/-- Transcription of `Worker::Execute`: fill the queue, fold over tiles, layers and
features, then materialize the properties of every slot. -/
def Execute (data : QueryData) : List ResultObject :=
  (data.tiles.foldl (process_tile data) (initial_queue data)).map materialize

/-- One GeoJSON feature as assembled by `Worker::OnOK` (vtquery.cpp lines 383-419). -/
structure OutFeature where
  id : ℕ
  coordinates : ℚ × ℚ
  properties : List Property
  tilequery_distance : Option ℚ
  tilequery_geometry : Option String
  tilequery_layer : String
deriving DecidableEq

/-- The GeoJSON feature built from one live result slot. -/
def toOutFeature (feature : ResultObject) : OutFeature :=
  { id := feature.id
    coordinates := feature.coordinates
    properties := feature.properties_vector_materialized
    tilequery_distance := feature.distance
    tilequery_geometry := getGeomTypeString feature.original_geometry_type.toIdx
    tilequery_layer := feature.layer_name }

/-- A slot is live when its distance is below the sentinel
(`feature.distance < std::numeric_limits<double>::max()`). -/
def isLive (r : ResultObject) : Bool := distLt r.distance none

/-- Transcription of `Worker::OnOK` (vtquery.cpp lines 383-422): the queue is walked
from the back, each live slot is written to the features array at its own index and
sentinel slots are skipped; since the queue leaves `Execute` sorted with all
sentinels at the back, the resulting array is exactly the in-order list of live
slots. -/
def OnOK (results_queue : List ResultObject) : List OutFeature :=
  (results_queue.filter isLive).map toOutFeature

/-- The whole query: `Worker::Execute` followed by `Worker::OnOK`. -/
def vtquery (data : QueryData) : List OutFeature :=
  OnOK (Execute data)

/-! Derived definitions used to state the claims: the flattened candidate stream
(the encounter order of features across tiles and within layers), the result
slot a candidate writes, validity of the data supplied by the external
collaborators, and the claim-level predicates. -/

/-- One step of the traversal seen as acting on the flattened candidate stream. -/
def process_offer (data : QueryData) (rq : List ResultObject)
    (o : String × FeatureData) : List ResultObject :=
  process_feature data o.1 rq o.2

/-- The candidates a layer contributes: none when the layer filter is non-empty and
does not contain the layer name, otherwise its features tagged with the layer name. -/
def layer_offers (data : QueryData) (layer : LayerData) : List (String × FeatureData) :=
  if data.layers ≠ [] ∧ layer.name ∉ data.layers then []
  else layer.features.map fun f => (layer.name, f)

/-- The flattened candidate stream of the whole query, in encounter order. -/
def offers (data : QueryData) : List (String × FeatureData) :=
  data.tiles.flatMap fun tile => tile.flatMap (layer_offers data)

/-- The result slot content a candidate writes when it is inserted. -/
def offerResult (data : QueryData) (o : String × FeatureData) : ResultObject :=
  insert_result defaultResult o.2.props o.1 (computed_ll data o.2) (computed_meters o.2)
    (get_geometry_type o.2.vt_geom_type) o.2.has_id o.2.id

/-- The slot a candidate writes over an existing slot content `old`. -/
def newResult (data : QueryData) (layer_name : String) (feature : FeatureData)
    (old : ResultObject) : ResultObject :=
  insert_result old feature.props layer_name (computed_ll data feature)
    (computed_meters feature) (get_geometry_type feature.vt_geom_type)
    feature.has_id feature.id

/-- The GeoJSON feature a candidate produces when it survives to the output. -/
def offerOut (data : QueryData) (o : String × FeatureData) : OutFeature :=
  toOutFeature (materialize (offerResult data o))

/-- Facts about one decoded feature that hold for the values actually produced by the
external kernel and transforms.  Modelled from the spec: the closest-point kernel
(section 4.B) yields a negative distance for the empty geometry extracted from a
feature of unknown type (so the unknown feature is skipped), and the haversine
distance (section 4.A) is non-negative. -/
def FeatureOK (f : FeatureData) : Prop :=
  (get_geometry_type f.vt_geom_type = GeomType.unknown → f.cp_distance < 0) ∧
    0 ≤ f.snap_meters

/-- A valid query: non-negative radius, positive validated limit, and every decoded
feature carrying kernel outputs consistent with the external collaborators. -/
def ValidQuery (data : QueryData) : Prop :=
  0 ≤ data.radius ∧ 1 ≤ data.num_results ∧
    ∀ tile ∈ data.tiles, ∀ layer ∈ tile, ∀ f ∈ layer.features, FeatureOK f

instance (f : FeatureData) : Decidable (FeatureOK f) := by
  unfold FeatureOK; infer_instance

instance (data : QueryData) : Decidable (ValidQuery data) := by
  unfold ValidQuery; infer_instance

/-- Index of the first occurrence of an element in a list. -/
def firstIdx {α : Type} [DecidableEq α] (u : α) : List α → ℕ
  | [] => 0
  | y :: ys => if y = u then 0 else firstIdx u ys + 1

/-- The output is sorted by ascending `tilequery.distance`. -/
def SortedOutput (data : QueryData) : Prop :=
  (vtquery data).Pairwise fun u v =>
    distLe u.tilequery_distance v.tilequery_distance = true

/-- Ties in the output are resolved by encounter order: among output features at equal
distance, the one produced by the earlier candidate of the traversal comes first. -/
def EncounterStable (data : QueryData) : Prop :=
  (vtquery data).Pairwise fun u v =>
    u.tilequery_distance = v.tilequery_distance →
      firstIdx u ((offers data).map (offerOut data)) <
        firstIdx v ((offers data).map (offerOut data))

/-- Two result slots share the dedupe key: same layer, same geometry type, equal ids
whenever both carry one, and the same materialized property list. -/
def ShareKey (u v : ResultObject) : Prop :=
  u.layer_name = v.layer_name ∧
    u.original_geometry_type = v.original_geometry_type ∧
    (u.has_id = true → v.has_id = true → u.id = v.id) ∧
    u.properties_vector_materialized = v.properties_vector_materialized

/-- Two queue slots share the dedupe key at the raw property-vector level (the
vectors the dedupe scan compares during the traversal). -/
def ShareVec (u v : ResultObject) : Prop :=
  u.layer_name = v.layer_name ∧
    u.original_geometry_type = v.original_geometry_type ∧
    (u.has_id = true → v.has_id = true → u.id = v.id) ∧
    u.properties_vector = v.properties_vector

/-- No two live output slots share the dedupe key. -/
def DedupedOutput (data : QueryData) : Prop :=
  ((Execute data).filter isLive).Pairwise fun u v => ¬ ShareKey u v

instance (u v : ResultObject) : Decidable (ShareKey u v) := by
  unfold ShareKey; infer_instance

instance (u v : ResultObject) : Decidable (ShareVec u v) := by
  unfold ShareVec; infer_instance

instance (data : QueryData) : Decidable (SortedOutput data) := by
  unfold SortedOutput; infer_instance

instance (data : QueryData) : Decidable (EncounterStable data) := by
  unfold EncounterStable; infer_instance

instance (data : QueryData) : Decidable (DedupedOutput data) := by
  unfold DedupedOutput; infer_instance

/-- The same query with another limit. -/
def withLimit (data : QueryData) (k : ℕ) : QueryData :=
  { data with num_results := k }

/-! Concrete data used to evaluate the theorems on closed inputs. -/

/-- A point feature directly under the query point (closest-point distance 0). -/
def wFeatureHit : FeatureData :=
  { vt_geom_type := VtGeomType.POINT, has_id := true, id := 7
    props := [("name", PropValue.strVal "X")]
    cp_distance := 0, snap_ll := (5, 5), snap_meters := 99 }

/-- A point feature 3 meters away from the query point. -/
def wFeatureNear : FeatureData :=
  { vt_geom_type := VtGeomType.POINT, has_id := false, id := 0, props := []
    cp_distance := 2, snap_ll := (1, 1), snap_meters := 3 }

/-- A small query: one tile, one layer, the two features above, radius 5, limit 3. -/
def wQuery : QueryData :=
  { tiles := [[{ name := "poi", features := [wFeatureHit, wFeatureNear] }]]
    layers := [], latitude := 0, longitude := 0, radius := 5
    num_results := 3, dedupe := true, geometry_filter_type := GeomType.all }

/-- A live result slot at distance 2 in layer L. -/
def wEntry : ResultObject :=
  { properties_vector := [], properties_vector_materialized := [], layer_name := "L"
    coordinates := (9, 9), distance := some 2
    original_geometry_type := GeomType.point, has_id := false, id := 0 }

/-- A candidate in layer L that duplicates `wEntry` at distance 1. -/
def wFeatureDup : FeatureData :=
  { vt_geom_type := VtGeomType.POINT, has_id := false, id := 0, props := []
    cp_distance := 1, snap_ll := (1, 1), snap_meters := 1 }

/-- A dedupe-enabled query with no tiles, used to exercise single traversal steps. -/
def wQueryDed : QueryData :=
  { tiles := [], layers := [], latitude := 0, longitude := 0, radius := 5
    num_results := 2, dedupe := true, geometry_filter_type := GeomType.all }

/-- Counterexample data for the tie-break claim: candidate A at distance 5. -/
def c1A : FeatureData :=
  { vt_geom_type := VtGeomType.POINT, has_id := false, id := 0
    props := [("k", PropValue.strVal "a")]
    cp_distance := 1, snap_ll := (1, 1), snap_meters := 5 }

/-- Candidate B, also at distance 5, with different properties. -/
def c1B : FeatureData :=
  { vt_geom_type := VtGeomType.POINT, has_id := false, id := 0
    props := [("k", PropValue.strVal "b")]
    cp_distance := 1, snap_ll := (2, 2), snap_meters := 5 }

/-- Candidate C, at distance 5, a duplicate of A with other coordinates. -/
def c1C : FeatureData :=
  { vt_geom_type := VtGeomType.POINT, has_id := false, id := 0
    props := [("k", PropValue.strVal "a")]
    cp_distance := 1, snap_ll := (3, 3), snap_meters := 5 }

/-- The tie-break counterexample query: A, B, C in one layer, dedupe on. -/
def c1Query : QueryData :=
  { tiles := [[{ name := "L", features := [c1A, c1B, c1C] }]]
    layers := [], latitude := 0, longitude := 0, radius := 10
    num_results := 5, dedupe := true, geometry_filter_type := GeomType.all }

/-- Idempotence counterexample: a feature without id at distance 2. -/
def c4c : FeatureData :=
  { vt_geom_type := VtGeomType.POINT, has_id := false, id := 0, props := []
    cp_distance := 1, snap_ll := (1, 1), snap_meters := 2 }

/-- Idempotence counterexample: a feature with id 1 at distance 3. -/
def c4a : FeatureData :=
  { vt_geom_type := VtGeomType.POINT, has_id := true, id := 1, props := []
    cp_distance := 1, snap_ll := (2, 2), snap_meters := 3 }

/-- Idempotence counterexample: a feature with id 2 at distance 1. -/
def c4b : FeatureData :=
  { vt_geom_type := VtGeomType.POINT, has_id := true, id := 2, props := []
    cp_distance := 1, snap_ll := (3, 3), snap_meters := 1 }

/-- The tile holding the three features above, in this order. -/
def c4Tile : TileData := [{ name := "L", features := [c4c, c4a, c4b] }]

/-- The idempotence counterexample query with the tile supplied once. -/
def c4QueryOnce : QueryData :=
  { tiles := [c4Tile], layers := [], latitude := 0, longitude := 0, radius := 10
    num_results := 2, dedupe := true, geometry_filter_type := GeomType.all }

/-- The idempotence counterexample query with the same tile supplied twice. -/
def c4QueryTwice : QueryData :=
  { tiles := [c4Tile, c4Tile], layers := [], latitude := 0, longitude := 0, radius := 10
    num_results := 2, dedupe := true, geometry_filter_type := GeomType.all }

/-- Dedupe-key counterexample: a feature with id 1 at distance 1. -/
def c8a : FeatureData :=
  { vt_geom_type := VtGeomType.POINT, has_id := true, id := 1, props := []
    cp_distance := 1, snap_ll := (1, 1), snap_meters := 1 }

/-- Dedupe-key counterexample: a feature with id 2 at distance 2. -/
def c8b : FeatureData :=
  { vt_geom_type := VtGeomType.POINT, has_id := true, id := 2, props := []
    cp_distance := 1, snap_ll := (2, 2), snap_meters := 2 }

/-- Dedupe-key counterexample: a feature without id at distance 1. -/
def c8c : FeatureData :=
  { vt_geom_type := VtGeomType.POINT, has_id := false, id := 0, props := []
    cp_distance := 1, snap_ll := (3, 3), snap_meters := 1 }

/-- A dedupe-off query over the two id-carrying features a and b. -/
def wQueryNoDedupe : QueryData :=
  { tiles := [[{ name := "L", features := [c8a, c8b] }]]
    layers := [], latitude := 0, longitude := 0, radius := 10
    num_results := 2, dedupe := false, geometry_filter_type := GeomType.all }

/-- A query whose features all carry ids: a, b in one layer, dedupe on, limit 2. -/
def c8QueryIds : QueryData :=
  { tiles := [[{ name := "L", features := [c8a, c8b] }]]
    layers := [], latitude := 0, longitude := 0, radius := 10
    num_results := 2, dedupe := true, geometry_filter_type := GeomType.all }

/-- The dedupe-key counterexample query: a, b, c in one layer, dedupe on, limit 2. -/
def c8Query : QueryData :=
  { tiles := [[{ name := "L", features := [c8a, c8b, c8c] }]]
    layers := [], latitude := 0, longitude := 0, radius := 10
    num_results := 2, dedupe := true, geometry_filter_type := GeomType.all }

/-! Ordering helpers: facts about the distance comparisons. -/

/-- The dedupe relation lifted to two candidates of the stream: the queue slot
written by candidate `o2` satisfies the duplicate predicate of candidate `o1`
(vtquery.cpp lines 330-334 applied to the slot of `o2`). -/
def dupCand (data : QueryData) (o1 o2 : String × FeatureData) : Bool :=
  value_is_duplicate (offerResult data o2) o1.2.has_id o1.2.id o1.1
    (get_geometry_type o1.2.vt_geom_type) o1.2.props

/-- A point feature with property list `p`, for the idempotence witness. -/
def c4f1 : FeatureData :=
  { vt_geom_type := VtGeomType.POINT, has_id := false, id := 0
    props := [("k", PropValue.strVal "p")]
    cp_distance := 1, snap_ll := (1, 1), snap_meters := 1 }

/-- A point feature with property list `q`, for the idempotence witness. -/
def c4f2 : FeatureData :=
  { vt_geom_type := VtGeomType.POINT, has_id := false, id := 0
    props := [("k", PropValue.strVal "q")]
    cp_distance := 2, snap_ll := (2, 2), snap_meters := 2 }

/-- A single tile holding the two pairwise non-duplicate features above. -/
def c4AmTile : TileData := [{ name := "L", features := [c4f1, c4f2] }]

/-- A dedupe-enabled single-tile query over `c4AmTile`. -/
def c4AmQuery : QueryData :=
  { tiles := [c4AmTile], layers := [], latitude := 0, longitude := 0, radius := 5
    num_results := 2, dedupe := true, geometry_filter_type := GeomType.all }

/-- Queue order: the first slot is at most the second (the comparator fails backwards). -/
def leR (a b : ResultObject) : Prop := CompareDistance b a = false

/-- The queue sortedness invariant: pairwise non-decreasing distances. -/
def SortedQ (l : List ResultObject) : Prop := l.Pairwise leR

theorem distLe_none (a : Option ℚ) : distLe a none = true := by
  cases a <;> rfl

theorem distLe_refl (a : Option ℚ) : distLe a a = true := by
  cases a with
  | none => rfl
  | some q => simp [distLe]

theorem distLt_asymm {a b : Option ℚ} (h : distLt a b = true) : distLt b a = false := by
  cases a <;> cases b <;> simp_all [distLt] <;> linarith

theorem distLe_of_distLt {a b : Option ℚ} (h : distLt a b = true) : distLe a b = true := by
  cases a <;> cases b <;> simp_all [distLt, distLe] <;> linarith

theorem distLt_false_of_le {a b c : Option ℚ} (h1 : distLt b a = false)
    (h2 : distLe c a = true) : distLt b c = false := by
  cases a <;> cases b <;> cases c <;> simp_all [distLt, distLe] <;> linarith

theorem distLt_false_trans {a b c : Option ℚ} (h1 : distLt b a = false)
    (h2 : distLt c b = false) : distLt c a = false := by
  cases a <;> cases b <;> cases c <;> simp_all [distLt] <;> linarith

theorem distLe_iff_not_distLt {a b : Option ℚ} : distLe a b = true ↔ distLt b a = false := by
  cases a <;> cases b <;> simp [distLt, distLe] <;> constructor <;> intro h <;> linarith

/-! Lemmas about the stable sort. -/

theorem insertBefore_perm (x : ResultObject) (l : List ResultObject) :
    List.Perm (insertBefore x l) (x :: l) := by
  induction l with
  | nil => exact List.Perm.refl _
  | cons y ys ih =>
    unfold insertBefore
    by_cases h : CompareDistance x y = true
    · simp [h]
    · simp only [Bool.not_eq_true] at h
      simp only [h, if_neg, Bool.false_eq_true, not_false_iff]
      exact (ih.cons y).trans (List.Perm.swap x y ys)

theorem length_insertBefore (x : ResultObject) (l : List ResultObject) :
    (insertBefore x l).length = l.length + 1 :=
  (insertBefore_perm x l).length_eq

theorem insertBefore_of_all {x : ResultObject} {l : List ResultObject}
    (h : ∀ y ∈ l, CompareDistance x y = false) : insertBefore x l = l ++ [x] := by
  induction l with
  | nil => rfl
  | cons y ys ih =>
    unfold insertBefore
    rw [h y (List.mem_cons_self y ys)]
    simp only [Bool.false_eq_true, if_neg, not_false_iff, List.cons_append,
      List.cons.injEq, true_and]
    exact ih fun z hz => h z (List.mem_cons_of_mem y hz)

theorem insertBefore_eq_takeWhile (x : ResultObject) (l : List ResultObject) :
    insertBefore x l = l.takeWhile (fun y => ! CompareDistance x y) ++
      x :: l.dropWhile (fun y => ! CompareDistance x y) := by
  induction l with
  | nil => rfl
  | cons y ys ih =>
    unfold insertBefore
    by_cases h : CompareDistance x y = true
    · simp [List.takeWhile_cons, List.dropWhile_cons, h]
    · simp only [Bool.not_eq_true] at h
      simp [List.takeWhile_cons, List.dropWhile_cons, h, ih]

theorem insertBefore_sorted {l : List ResultObject} (x : ResultObject)
    (h : SortedQ l) : SortedQ (insertBefore x l) := by
  induction l with
  | nil => exact List.pairwise_singleton _ _
  | cons y ys ih =>
    rcases List.pairwise_cons.mp h with ⟨hy, hys⟩
    unfold insertBefore
    by_cases hc : CompareDistance x y = true
    · simp only [hc, if_pos]
      refine List.pairwise_cons.mpr ⟨?_, h⟩
      intro z hz
      rcases List.mem_cons.mp hz with rfl | hz
      · exact distLt_asymm hc
      · exact distLt_false_trans (distLt_asymm hc) (hy z hz)
    · simp only [Bool.not_eq_true] at hc
      simp only [hc, Bool.false_eq_true, if_neg, not_false_iff]
      refine List.pairwise_cons.mpr ⟨?_, ih hys⟩
      intro z hz
      rcases List.mem_cons.mp ((insertBefore_perm x ys).mem_iff.mp hz) with rfl | hz
      · exact hc
      · exact hy z hz

theorem foldl_insertBefore_of_sorted {acc l : List ResultObject}
    (h : SortedQ (acc ++ l)) :
    l.foldl (fun acc x => insertBefore x acc) acc = acc ++ l := by
  induction l generalizing acc with
  | nil => simp
  | cons y ys ih =>
    have hcross := (List.pairwise_append.mp h).2.2
    have h1 : insertBefore y acc = acc ++ [y] :=
      insertBefore_of_all fun a ha => hcross a ha y (List.mem_cons_self y ys)
    have h2 : SortedQ ((acc ++ [y]) ++ ys) := by
      rwa [List.append_assoc, List.singleton_append]
    calc (y :: ys).foldl (fun acc x => insertBefore x acc) acc
        = ys.foldl (fun acc x => insertBefore x acc) (insertBefore y acc) := rfl
      _ = (acc ++ [y]) ++ ys := by rw [h1]; exact ih h2
      _ = acc ++ y :: ys := by rw [List.append_assoc, List.singleton_append]

theorem stable_sort_of_sorted {l : List ResultObject} (h : SortedQ l) :
    stable_sort l = l := by
  have h2 : SortedQ (([] : List ResultObject) ++ l) := by simpa using h
  simpa using foldl_insertBefore_of_sorted h2

theorem stable_sort_perm (l : List ResultObject) : List.Perm (stable_sort l) l := by
  suffices h : ∀ (l acc : List ResultObject),
      List.Perm (l.foldl (fun acc x => insertBefore x acc) acc) (acc ++ l) by
    simpa using h l []
  intro l
  induction l with
  | nil => intro acc; simp
  | cons y ys ih =>
    intro acc
    have h1 : List.Perm (ys.foldl (fun acc x => insertBefore x acc) (insertBefore y acc))
        (insertBefore y acc ++ ys) := ih _
    have h2 : List.Perm (insertBefore y acc ++ ys) ((y :: acc) ++ ys) :=
      (insertBefore_perm y acc).append_right ys
    have h3 : List.Perm ((y :: acc) ++ ys) (acc ++ y :: ys) := by
      simpa using (@List.perm_middle _ y acc ys).symm
    exact (h1.trans h2).trans h3

theorem stable_sort_sorted (l : List ResultObject) : SortedQ (stable_sort l) := by
  suffices h : ∀ (l acc : List ResultObject), SortedQ acc →
      SortedQ (l.foldl (fun acc x => insertBefore x acc) acc) from
    h l [] List.Pairwise.nil
  intro l
  induction l with
  | nil => intro acc h; exact h
  | cons y ys ih => intro acc h; exact ih _ (insertBefore_sorted y h)

theorem length_stable_sort (l : List ResultObject) :
    (stable_sort l).length = l.length :=
  (stable_sort_perm l).length_eq

theorem stable_sort_mid {u v : List ResultObject} {e z : ResultObject}
    (hs : SortedQ (u ++ e :: v)) (hz : distLe z.distance e.distance = true) :
    stable_sort (u ++ z :: v) =
      u.takeWhile (fun y => ! CompareDistance z y) ++
        z :: (u.dropWhile (fun y => ! CompareDistance z y) ++ v) := by
  have hu : SortedQ u := (List.pairwise_append.mp hs).1
  have hev : List.Pairwise leR (e :: v) := (List.pairwise_append.mp hs).2.1
  have hcross := (List.pairwise_append.mp hs).2.2
  have h1 : stable_sort (u ++ z :: v) =
      v.foldl (fun acc x => insertBefore x acc) (insertBefore z (stable_sort u)) := by
    unfold stable_sort
    rw [show u ++ z :: v = (u ++ [z]) ++ v by simp, List.foldl_append, List.foldl_append]
    rfl
  rw [h1, stable_sort_of_sorted hu]
  have hsorted : SortedQ (insertBefore z u) := insertBefore_sorted z hu
  have hall : ∀ a ∈ insertBefore z u, ∀ b ∈ v, leR a b := by
    intro a ha b hb
    rcases List.mem_cons.mp ((insertBefore_perm z u).mem_iff.mp ha) with rfl | ha
    · have h3 : distLt b.distance e.distance = false := (List.pairwise_cons.mp hev).1 b hb
      exact distLt_false_of_le h3 hz
    · exact hcross a ha b (List.mem_cons_of_mem e hb)
  have h4 : SortedQ (insertBefore z u ++ v) := by
    rw [SortedQ, List.pairwise_append]
    exact ⟨hsorted, (List.pairwise_cons.mp hev).2, hall⟩
  rw [foldl_insertBefore_of_sorted h4, insertBefore_eq_takeWhile]
  simp

theorem stable_sort_back {rq : List ResultObject} {z : ResultObject}
    (hs : SortedQ rq) (hne : rq ≠ [])
    (hz : distLe z.distance (rq.getLast hne).distance = true) :
    stable_sort (rq.dropLast ++ [z]) =
      rq.dropLast.takeWhile (fun y => ! CompareDistance z y) ++
        z :: rq.dropLast.dropWhile (fun y => ! CompareDistance z y) := by
  have h0 : rq.dropLast ++ rq.getLast hne :: ([] : List ResultObject) = rq := by
    simpa using List.dropLast_append_getLast hne
  have hs2 : SortedQ (rq.dropLast ++ rq.getLast hne :: ([] : List ResultObject)) := by
    rw [h0]; exact hs
  simpa using stable_sort_mid hs2 hz

/-! Generic fold helpers. -/

theorem foldl_inv {α β : Type} {P : β → Prop} {step : β → α → β}
    {l : List α} {init : β} (h0 : P init)
    (hstep : ∀ b a, a ∈ l → P b → P (step b a)) :
    P (l.foldl step init) := by
  induction l generalizing init with
  | nil => exact h0
  | cons a l ih =>
    rw [List.foldl_cons]
    exact ih (hstep init a (List.mem_cons_self a l) h0)
      fun b x hx hb => hstep b x (List.mem_cons_of_mem a hx) hb

theorem foldl_congr_fun {α β : Type} {f g : β → α → β} (h : ∀ b a, f b a = g b a) :
    ∀ (l : List α) (init : β), l.foldl f init = l.foldl g init := by
  intro l
  induction l with
  | nil => intro init; rfl
  | cons a l ih => intro init; rw [List.foldl_cons, List.foldl_cons, h, ih]

theorem foldl_flatMap {α β γ : Type} (g : α → List β) (f : γ → β → γ)
    (l : List α) (init : γ) :
    (l.flatMap g).foldl f init = l.foldl (fun acc a => (g a).foldl f acc) init := by
  induction l generalizing init with
  | nil => rfl
  | cons a l ih => rw [List.flatMap_cons, List.foldl_append, List.foldl_cons, ih]

/-! The traversal of `Worker::Execute` seen as one fold over the flattened
candidate stream. -/

theorem process_layer_eq (data : QueryData) (rq : List ResultObject) (layer : LayerData) :
    process_layer data rq layer = (layer_offers data layer).foldl (process_offer data) rq := by
  unfold process_layer layer_offers
  by_cases h : data.layers ≠ [] ∧ layer.name ∉ data.layers
  · rw [if_pos h, if_pos h]; rfl
  · rw [if_neg h, if_neg h, List.foldl_map]
    rfl

theorem process_tile_eq (data : QueryData) (rq : List ResultObject) (tile : TileData) :
    process_tile data rq tile =
      (tile.flatMap (layer_offers data)).foldl (process_offer data) rq := by
  unfold process_tile
  rw [foldl_flatMap]
  exact foldl_congr_fun (fun b a => process_layer_eq data b a) tile rq

theorem Execute_eq_offers (data : QueryData) :
    Execute data =
      ((offers data).foldl (process_offer data) (initial_queue data)).map materialize := by
  unfold Execute offers
  rw [foldl_flatMap]
  congr 1
  exact foldl_congr_fun (fun b a => process_tile_eq data b a) data.tiles (initial_queue data)

/-! Shape and membership facts about one traversal step. -/

theorem process_feature_shape (data : QueryData) (layer_name : String)
    (rq : List ResultObject) (feature : FeatureData) :
    process_feature data layer_name rq feature = rq ∨
      ∃ l, process_feature data layer_name rq feature = stable_sort l ∧
        (rq ≠ [] → l.length = rq.length) := by
  unfold process_feature
  split
  · exact Or.inl rfl
  split
  · exact Or.inl rfl
  split
  · exact Or.inl rfl
  split
  · split
    · refine Or.inr ⟨_, rfl, fun _ => ?_⟩
      rw [List.length_set]
    · exact Or.inl rfl
  · split
    · refine Or.inr ⟨_, rfl, fun hne => ?_⟩
      rw [List.length_append, List.length_dropLast, List.length_singleton]
      have : 1 ≤ rq.length := List.length_pos.mpr hne
      omega
    · exact Or.inl rfl

theorem length_process_feature (data : QueryData) (layer_name : String)
    {rq : List ResultObject} (feature : FeatureData) (hne : rq ≠ []) :
    (process_feature data layer_name rq feature).length = rq.length := by
  rcases process_feature_shape data layer_name rq feature with h | ⟨l, he, hl⟩
  · rw [h]
  · rw [he, length_stable_sort, hl hne]

theorem sorted_process_feature (data : QueryData) (layer_name : String)
    {rq : List ResultObject} (feature : FeatureData) (hs : SortedQ rq) :
    SortedQ (process_feature data layer_name rq feature) := by
  rcases process_feature_shape data layer_name rq feature with h | ⟨l, he, _⟩
  · rw [h]; exact hs
  · rw [he]; exact stable_sort_sorted l

theorem mem_process_feature {data : QueryData} {layer_name : String}
    {rq : List ResultObject} {feature : FeatureData} {e : ResultObject}
    (h : e ∈ process_feature data layer_name rq feature) :
    e ∈ rq ∨
      ((data.geometry_filter_type = GeomType.all ∨
          data.geometry_filter_type = get_geometry_type feature.vt_geom_type) ∧
        0 ≤ feature.cp_distance ∧ computed_meters feature ≤ data.radius ∧
        e.properties_vector = feature.props ∧
        e.layer_name = layer_name ∧
        e.coordinates = computed_ll data feature ∧
        e.distance = some (computed_meters feature) ∧
        e.original_geometry_type = get_geometry_type feature.vt_geom_type ∧
        e.has_id = feature.has_id ∧ e.id = feature.id ∧
        ∃ old, (old ∈ rq ∨ old = defaultResult) ∧
          e.properties_vector_materialized = old.properties_vector_materialized) := by
  unfold process_feature at h
  split at h
  · exact Or.inl h
  split at h
  · exact Or.inl h
  split at h
  · exact Or.inl h
  rename_i hfilter hcp hrad
  have hfilter2 : data.geometry_filter_type = GeomType.all ∨
      data.geometry_filter_type = get_geometry_type feature.vt_geom_type := by
    rcases not_and_or.mp hfilter with h2 | h2
    · exact Or.inl (not_ne_iff.mp h2)
    · exact Or.inr (not_ne_iff.mp h2)
  have hcp2 : 0 ≤ feature.cp_distance := not_lt.mp hcp
  have hrad2 : computed_meters feature ≤ data.radius := not_lt.mp hrad
  split at h
  · rename_i i hfind
    split at h
    · have h2 := (stable_sort_perm _).mem_iff.mp h
      rcases List.mem_or_eq_of_mem_set h2 with h3 | h3
      · exact Or.inl h3
      · subst h3
        refine Or.inr ⟨hfilter2, hcp2, hrad2, rfl, rfl, rfl, rfl, rfl, rfl, rfl, ?_⟩
        refine ⟨rq.getD i defaultResult, ?_, rfl⟩
        by_cases hi : i < rq.length
        · rw [List.getD_eq_getElem rq defaultResult hi]
          exact Or.inl (List.getElem_mem hi)
        · exact Or.inr (List.getD_eq_default rq defaultResult (not_lt.mp hi))
    · exact Or.inl h
  · split at h
    · have h2 := (stable_sort_perm _).mem_iff.mp h
      rcases List.mem_append.mp h2 with h3 | h3
      · exact Or.inl (List.dropLast_sublist rq |>.subset h3)
      · have h4 : e = insert_result ((rq.getLast?).getD defaultResult) feature.props
            layer_name (computed_ll data feature) (computed_meters feature)
            (get_geometry_type feature.vt_geom_type) feature.has_id feature.id :=
          List.mem_singleton.mp h3
        subst h4
        refine Or.inr ⟨hfilter2, hcp2, hrad2, rfl, rfl, rfl, rfl, rfl, rfl, rfl, ?_⟩
        refine ⟨(rq.getLast?).getD defaultResult, ?_, rfl⟩
        cases hq : rq.getLast? with
        | none => simp [hq]
        | some x =>
          exact Or.inl (by simpa using List.mem_of_getLast?_eq_some hq)
    · exact Or.inl h

/-- The radius cutoff (vtquery.cpp lines 319-322): a candidate farther than the
radius leaves the queue untouched. -/
theorem process_feature_radius_skip (data : QueryData) (layer_name : String)
    (rq : List ResultObject) (feature : FeatureData)
    (h : data.radius < computed_meters feature) :
    process_feature data layer_name rq feature = rq := by
  unfold process_feature
  by_cases h1 : data.geometry_filter_type ≠ GeomType.all ∧
      data.geometry_filter_type ≠ get_geometry_type feature.vt_geom_type
  · rw [if_pos h1]
  rw [if_neg h1]
  by_cases h2 : feature.cp_distance < 0
  · rw [if_pos h2]
  rw [if_neg h2, if_pos h]

/-! Execute-level invariants. -/

theorem offers_feature_ok {data : QueryData} (h : ValidQuery data) :
    ∀ o ∈ offers data, FeatureOK o.2 := by
  intro o ho
  rcases List.mem_flatMap.mp ho with ⟨tile, htile, ho2⟩
  rcases List.mem_flatMap.mp ho2 with ⟨layer, hlayer, ho3⟩
  unfold layer_offers at ho3
  split at ho3
  · simp at ho3
  · rcases List.mem_map.mp ho3 with ⟨f, hf, rfl⟩
    exact h.2.2 tile htile layer hlayer f hf

theorem initial_queue_sorted (data : QueryData) : SortedQ (initial_queue data) := by
  rw [SortedQ, initial_queue, List.pairwise_replicate]
  exact Or.inr rfl

theorem final_queue_sorted (data : QueryData) :
    SortedQ ((offers data).foldl (process_offer data) (initial_queue data)) :=
  foldl_inv (initial_queue_sorted data)
    fun rq o _ hrq => sorted_process_feature data o.1 o.2 hrq

theorem final_queue_length (data : QueryData) (h : 1 ≤ data.num_results) :
    ((offers data).foldl (process_offer data) (initial_queue data)).length =
      data.num_results := by
  refine foldl_inv (P := fun rq : List ResultObject => rq.length = data.num_results) ?_ ?_
  · exact List.length_replicate data.num_results defaultResult
  · intro rq o _ hrq
    have hne : rq ≠ [] := by
      intro hnil
      subst hnil
      rw [List.length_nil] at hrq
      omega
    have h2 : process_offer data rq o = process_feature data o.1 rq o.2 := rfl
    rw [h2, length_process_feature data o.1 o.2 hne, hrq]

theorem materialize_distance (r : ResultObject) : (materialize r).distance = r.distance :=
  rfl

theorem Execute_sorted (data : QueryData) : SortedQ (Execute data) := by
  rw [Execute_eq_offers, SortedQ, List.pairwise_map]
  exact (final_queue_sorted data).imp fun hab => hab

theorem Execute_length (data : QueryData) (h : 1 ≤ data.num_results) :
    (Execute data).length = data.num_results := by
  rw [Execute_eq_offers, List.length_map]
  exact final_queue_length data h

/-- The central live-slot invariant: every live slot of the final queue was written by
a candidate that passed the geometry filter, the negative-distance check and the
radius cutoff, so it carries a distance within the radius and a concrete
(point, linestring or polygon) geometry type. -/
theorem Execute_live {data : QueryData}
    (hfeat : ∀ o ∈ offers data, FeatureOK o.2) :
    ∀ e ∈ Execute data, isLive e = true →
      (∃ m, e.distance = some m ∧ 0 ≤ m ∧ m ≤ data.radius) ∧
        (e.original_geometry_type = GeomType.point ∨
          e.original_geometry_type = GeomType.linestring ∨
          e.original_geometry_type = GeomType.polygon) := by
  rw [Execute_eq_offers]
  have key : ∀ e ∈ (offers data).foldl (process_offer data) (initial_queue data),
      isLive e = true →
        (∃ m, e.distance = some m ∧ 0 ≤ m ∧ m ≤ data.radius) ∧
          (e.original_geometry_type = GeomType.point ∨
            e.original_geometry_type = GeomType.linestring ∨
            e.original_geometry_type = GeomType.polygon) := by
    refine foldl_inv (P := fun rq => ∀ e ∈ rq, isLive e = true →
      (∃ m, e.distance = some m ∧ 0 ≤ m ∧ m ≤ data.radius) ∧
        (e.original_geometry_type = GeomType.point ∨
          e.original_geometry_type = GeomType.linestring ∨
          e.original_geometry_type = GeomType.polygon)) ?_ ?_
    · intro e he hl
      rw [initial_queue] at he
      rw [List.eq_of_mem_replicate he] at hl
      exact absurd hl (by rw [isLive, defaultResult]; simp [distLt])
    · intro rq o ho hrq e he hl
      rcases mem_process_feature he with h | ⟨_, hcp, hrad, _, _, _, hdist, hgeom, _⟩
      · exact hrq e h hl
      · constructor
        · refine ⟨computed_meters o.2, hdist, ?_, hrad⟩
          rw [computed_meters]
          split
          · exact (hfeat o ho).2
          · exact le_refl 0
        · rw [hgeom]
          cases hvt : o.2.vt_geom_type with
          | POINT => exact Or.inl rfl
          | LINESTRING => exact Or.inr (Or.inl rfl)
          | POLYGON => exact Or.inr (Or.inr rfl)
          | UNKNOWN =>
            have h2 := (hfeat o ho).1 (by rw [hvt]; rfl)
            exact absurd hcp (not_le.mpr h2)
  intro e he hl
  rcases List.mem_map.mp he with ⟨r, hr, rfl⟩
  have h3 := key r hr (by rw [isLive, ← materialize_distance]; exact hl)
  exact h3

/-- The negative-distance safety check (vtquery.cpp lines 305-308): a candidate with a
negative closest-point distance leaves the queue untouched. -/
theorem process_feature_negcp_skip (data : QueryData) (layer_name : String)
    (rq : List ResultObject) (feature : FeatureData)
    (h : feature.cp_distance < 0) :
    process_feature data layer_name rq feature = rq := by
  unfold process_feature
  by_cases h1 : data.geometry_filter_type ≠ GeomType.all ∧
      data.geometry_filter_type ≠ get_geometry_type feature.vt_geom_type
  · rw [if_pos h1]
  rw [if_neg h1, if_pos h]

theorem findIdx?_append_cons {α : Type} (p : α → Bool) (e : α) :
    ∀ (u v : List α) (i : ℕ), (∀ r ∈ u, p r = false) → p e = true →
      List.findIdx? p (u ++ e :: v) i = some (u.length + i) := by
  intro u
  induction u with
  | nil =>
    intro v i _ he
    rw [List.nil_append, List.findIdx?_cons, if_pos he, List.length_nil, Nat.zero_add]
  | cons a u ih =>
    intro v i hu he
    have ha : ¬ p a = true := by
      rw [hu a (List.mem_cons_self a u)]
      exact Bool.false_ne_true
    rw [List.cons_append, List.findIdx?_cons, if_neg ha,
      ih v (i + 1) (fun r hr => hu r (List.mem_cons_of_mem a hr)) he]
    congr 1
    rw [List.length_cons]
    omega

theorem getD_append_length {α : Type} (d e : α) :
    ∀ (u v : List α), (u ++ e :: v).getD u.length d = e := by
  intro u
  induction u with
  | nil => intro v; rfl
  | cons a u ih =>
    intro v
    rw [List.cons_append, List.length_cons, List.getD_cons_succ]
    exact ih v

/-- Characterization of `value_is_duplicate`: true exactly when layer and geometry
type agree, the ids do not conflict, and the raw property vectors are equal. -/
theorem value_is_duplicate_iff (r : ResultObject) (chid : Bool) (cid : ℕ)
    (clayer : String) (cgeom : GeomType) (cprops : List Property) :
    value_is_duplicate r chid cid clayer cgeom cprops = true ↔
      (r.layer_name = clayer ∧ r.original_geometry_type = cgeom ∧
        ¬(r.has_id = true ∧ chid = true ∧ r.id ≠ cid) ∧
        r.properties_vector = cprops) := by
  unfold value_is_duplicate
  by_cases h1 : r.layer_name ≠ clayer
  · rw [if_pos h1]
    simp only [Bool.false_eq_true, false_iff]
    intro hc
    exact h1 hc.1
  rw [if_neg h1]
  by_cases h2 : r.original_geometry_type ≠ cgeom
  · rw [if_pos h2]
    simp only [Bool.false_eq_true, false_iff]
    intro hc
    exact h2 hc.2.1
  rw [if_neg h2]
  by_cases h3 : (r.has_id = true) ∧ (chid = true) ∧ r.id ≠ cid
  · rw [if_pos (by simpa using h3)]
    simp only [Bool.false_eq_true, false_iff]
    intro hc
    exact hc.2.2.1 h3
  · rw [if_neg (by simpa using h3)]
    simp only [decide_eq_true_eq]
    constructor
    · intro hp
      exact ⟨not_ne_iff.mp h1, not_ne_iff.mp h2, h3, hp⟩
    · intro hc
      exact hc.2.2.2

theorem ShareVec_symm {u v : ResultObject} (h : ShareVec u v) : ShareVec v u := by
  obtain ⟨h1, h2, h3, h4⟩ := h
  exact ⟨h1.symm, h2.symm, fun hv hu => (h3 hu hv).symm, h4.symm⟩

theorem pairwise_replace_mid {α : Type} {R : α → α → Prop}
    (hsym : ∀ x y, R x y → R y x) {u v : List α} {e z : α}
    (h : (u ++ e :: v).Pairwise R) (hz : ∀ w ∈ u ++ v, R z w) :
    (u ++ z :: v).Pairwise R := by
  rw [List.pairwise_append] at h
  obtain ⟨hpu, hpev, hcross⟩ := h
  rw [List.pairwise_cons] at hpev
  rw [List.pairwise_append, List.pairwise_cons]
  refine ⟨hpu, ⟨fun y hy => hz y (List.mem_append.mpr (Or.inr hy)), hpev.2⟩, ?_⟩
  intro a ha b hb
  rcases List.mem_cons.mp hb with rfl | hb
  · exact hsym _ _ (hz a (List.mem_append.mpr (Or.inl ha)))
  · exact hcross a ha b (List.mem_cons_of_mem e hb)

theorem pairwise_dropLast_append {α : Type} {R : α → α → Prop}
    (hsym : ∀ x y, R x y → R y x) {rq : List α} {z : α}
    (h : rq.Pairwise R) (hz : ∀ w ∈ rq.dropLast, R z w) :
    (rq.dropLast ++ [z]).Pairwise R := by
  rw [List.pairwise_append]
  refine ⟨List.Pairwise.sublist (List.dropLast_sublist rq) h,
    List.pairwise_singleton _ _, ?_⟩
  intro a ha b hb
  rw [List.mem_singleton] at hb
  subst hb
  exact hsym _ _ (hz a ha)

theorem offers_forall {data : QueryData} {P : FeatureData → Prop}
    (h : ∀ tile ∈ data.tiles, ∀ layer ∈ tile, ∀ f ∈ layer.features, P f) :
    ∀ o ∈ offers data, P o.2 := by
  intro o ho
  rcases List.mem_flatMap.mp ho with ⟨tile, htile, ho2⟩
  rcases List.mem_flatMap.mp ho2 with ⟨layer, hlayer, ho3⟩
  unfold layer_offers at ho3
  split at ho3
  · simp at ho3
  · rcases List.mem_map.mp ho3 with ⟨f, hf, rfl⟩
    exact h tile htile layer hlayer f hf

/-- Field projections of the slot a candidate writes. -/
theorem newResult_fields (data : QueryData) (layer_name : String)
    (feature : FeatureData) (old : ResultObject) :
    (newResult data layer_name feature old).layer_name = layer_name ∧
    (newResult data layer_name feature old).original_geometry_type =
      get_geometry_type feature.vt_geom_type ∧
    (newResult data layer_name feature old).has_id = feature.has_id ∧
    (newResult data layer_name feature old).id = feature.id ∧
    (newResult data layer_name feature old).properties_vector = feature.props ∧
    (newResult data layer_name feature old).distance =
      some (computed_meters feature) ∧
    isLive (newResult data layer_name feature old) = true := by
  refine ⟨rfl, rfl, rfl, rfl, rfl, rfl, rfl⟩

/-! Claim theorems. -/

/-- Claim C5: for every valid query the result set holds exactly `limit` slots
throughout execution (a traversal step never changes the container length, the
queue starts and ends with exactly `num_results` slots), and after the sentinel
slots are dropped the emitted FeatureCollection has at most `limit` features. -/
theorem C5_limit_slots (data : QueryData) (h : 1 ≤ data.num_results) :
    (initial_queue data).length = data.num_results ∧
    (∀ (layer_name : String) (rq : List ResultObject) (feature : FeatureData),
      rq ≠ [] → (process_feature data layer_name rq feature).length = rq.length) ∧
    (Execute data).length = data.num_results ∧
    (vtquery data).length ≤ data.num_results := by
  refine ⟨List.length_replicate _ _, ?_, Execute_length data h, ?_⟩
  · intro layer_name rq feature hne
    exact length_process_feature data layer_name feature hne
  · rw [vtquery, OnOK, List.length_map]
    calc ((Execute data).filter isLive).length
        ≤ (Execute data).length := List.length_filter_le _ _
      _ = data.num_results := Execute_length data h

/-- Witness for C5 on the concrete query `wQuery` (limit 3, two candidates). -/
theorem C5_limit_slots_witness :
    (Execute wQuery).length = wQuery.num_results ∧
      (vtquery wQuery).length ≤ wQuery.num_results :=
  ⟨(C5_limit_slots wQuery (by decide)).2.2.1, (C5_limit_slots wQuery (by decide)).2.2.2⟩

/-- Claim C2: a candidate whose meter distance exceeds the radius is skipped (the
queue is returned unchanged), every emitted feature carries a distance between 0 and
the radius, and with the default radius 0 every emitted distance is exactly 0. -/
theorem C2_radius_cutoff (data : QueryData) (h : ValidQuery data) :
    (∀ (layer_name : String) (rq : List ResultObject) (feature : FeatureData),
      data.radius < computed_meters feature →
      process_feature data layer_name rq feature = rq) ∧
    (∀ u ∈ vtquery data, ∃ m, u.tilequery_distance = some m ∧ 0 ≤ m ∧ m ≤ data.radius) ∧
    (data.radius = 0 → ∀ u ∈ vtquery data, u.tilequery_distance = some 0) := by
  have hmain : ∀ u ∈ vtquery data,
      ∃ m, u.tilequery_distance = some m ∧ 0 ≤ m ∧ m ≤ data.radius := by
    intro u hu
    rcases List.mem_map.mp hu with ⟨e, he, rfl⟩
    have he2 := List.mem_filter.mp he
    rcases (Execute_live (offers_feature_ok h) e he2.1 he2.2).1 with ⟨m, hm, h0, hr⟩
    exact ⟨m, hm, h0, hr⟩
  refine ⟨?_, hmain, ?_⟩
  · intro layer_name rq feature hr
    exact process_feature_radius_skip data layer_name rq feature hr
  · intro h0 u hu
    rcases hmain u hu with ⟨m, hm, hge, hle⟩
    rw [h0] at hle
    rw [hm, le_antisymm hle hge]

/-- Witness for C2 on `wQuery`: both emitted features respect the radius. -/
theorem C2_radius_cutoff_witness :
    ValidQuery wQuery ∧
      ∀ u ∈ vtquery wQuery,
        ∃ m, u.tilequery_distance = some m ∧ 0 ≤ m ∧ m ≤ wQuery.radius :=
  ⟨by decide, (C2_radius_cutoff wQuery (by decide)).2.1⟩

/-- Claim C6: a feature whose geometry type is unknown is skipped (for a concrete
geometry filter it fails the filter, and with the filter `all` its extracted
geometry is empty so the kernel reports a negative distance), and no output
feature ever carries the geometry string "unknown". -/
theorem C6_unknown_skipped (data : QueryData) (h : ValidQuery data) :
    (∀ (layer_name : String) (rq : List ResultObject) (feature : FeatureData),
      FeatureOK feature →
      get_geometry_type feature.vt_geom_type = GeomType.unknown →
      process_feature data layer_name rq feature = rq) ∧
    (∀ u ∈ vtquery data, u.tilequery_geometry ≠ some "unknown" ∧
      (u.tilequery_geometry = some "point" ∨ u.tilequery_geometry = some "linestring" ∨
        u.tilequery_geometry = some "polygon")) := by
  constructor
  · intro layer_name rq feature hok hunk
    exact process_feature_negcp_skip data layer_name rq feature (hok.1 hunk)
  · intro u hu
    rcases List.mem_map.mp hu with ⟨e, he, rfl⟩
    have he2 := List.mem_filter.mp he
    have hgeom := (Execute_live (offers_feature_ok h) e he2.1 he2.2).2
    have hstr : (toOutFeature e).tilequery_geometry =
        getGeomTypeString e.original_geometry_type.toIdx := rfl
    rcases hgeom with hg | hg | hg <;> rw [hstr, hg] <;> exact ⟨by decide, by decide⟩

/-- Witness for C6 on `wQuery`: the emitted geometry strings are concrete. -/
theorem C6_unknown_skipped_witness :
    ValidQuery wQuery ∧
      ∀ u ∈ vtquery wQuery, u.tilequery_geometry ≠ some "unknown" ∧
        (u.tilequery_geometry = some "point" ∨ u.tilequery_geometry = some "linestring" ∨
          u.tilequery_geometry = some "polygon") :=
  ⟨by decide, (C6_unknown_skipped wQuery (by decide)).2⟩

/-- Claim C10: every live slot of the final queue carries geometry type point,
linestring or polygon, so its enum value indexes inside the 4-element
`GeomTypeStrings` array (never the out-of-range value `unknown` = 4). -/
theorem C10_geom_index_in_bounds (data : QueryData) (h : ValidQuery data) :
    ∀ e ∈ Execute data, isLive e = true →
      (e.original_geometry_type = GeomType.point ∨
        e.original_geometry_type = GeomType.linestring ∨
        e.original_geometry_type = GeomType.polygon) ∧
      e.original_geometry_type.toIdx < GeomTypeStrings.length ∧
      (getGeomTypeString e.original_geometry_type.toIdx).isSome = true := by
  intro e he hl
  have hgeom := (Execute_live (offers_feature_ok h) e he hl).2
  refine ⟨hgeom, ?_, ?_⟩ <;> rcases hgeom with hg | hg | hg <;> rw [hg] <;> decide

/-- Witness for C10 on `wQuery`: the live slots of its final queue index in bounds. -/
theorem C10_geom_index_in_bounds_witness :
    ValidQuery wQuery ∧
      ∀ e ∈ Execute wQuery, isLive e = true →
        (e.original_geometry_type = GeomType.point ∨
          e.original_geometry_type = GeomType.linestring ∨
          e.original_geometry_type = GeomType.polygon) ∧
        e.original_geometry_type.toIdx < GeomTypeStrings.length ∧
        (getGeomTypeString e.original_geometry_type.toIdx).isSome = true :=
  ⟨by decide, C10_geom_index_in_bounds wQuery (by decide)⟩

/-- Claim C7: a candidate with closest-point distance exactly 0 keeps the original
query lon/lat as its coordinates and meter distance 0 (no round trip through
`convert_vt_to_ll`), while a candidate at positive closest-point distance gets the
converted snap point and the recomputed haversine distance. -/
theorem C7_direct_hit (data : QueryData) (layer_name : String) (feature : FeatureData) :
    (feature.cp_distance = 0 →
      computed_ll data feature = (data.longitude, data.latitude) ∧
      computed_meters feature = 0 ∧
      (offerResult data (layer_name, feature)).coordinates =
        (data.longitude, data.latitude) ∧
      (offerResult data (layer_name, feature)).distance = some 0) ∧
    (0 < feature.cp_distance →
      computed_ll data feature = feature.snap_ll ∧
      computed_meters feature = feature.snap_meters) := by
  constructor
  · intro h0
    have h1 : ¬ 0 < feature.cp_distance := by rw [h0]; exact lt_irrefl 0
    refine ⟨?_, ?_, ?_, ?_⟩ <;>
      simp [computed_ll, computed_meters, offerResult, insert_result, h1]
  · intro hpos
    exact ⟨by rw [computed_ll, if_pos hpos], by rw [computed_meters, if_pos hpos]⟩

/-- Witness for C7 on the direct-hit feature of `wQuery`. -/
theorem C7_direct_hit_witness :
    wFeatureHit.cp_distance = 0 ∧
      (offerResult wQuery ("poi", wFeatureHit)).coordinates =
        (wQuery.longitude, wQuery.latitude) ∧
      (offerResult wQuery ("poi", wFeatureHit)).distance = some 0 := by
  refine ⟨by decide, ?_, ?_⟩
  · exact ((C7_direct_hit wQuery "poi" wFeatureHit).1 (by decide)).2.2.1
  · exact ((C7_direct_hit wQuery "poi" wFeatureHit).1 (by decide)).2.2.2

/-- Claim C3: two entries are duplicates exactly when they share the layer name and
the geometry type, do not carry two distinct present ids, and have equal property
sequences; when the first duplicate found is at least as far as the candidate, its
slot is overwritten in place and the queue stably re-sorted, otherwise the candidate
is discarded and the queue is unchanged. -/
theorem C3_dedupe_merge (data : QueryData) (layer_name : String)
    (rq : List ResultObject) (feature : FeatureData)
    (hded : data.dedupe = true)
    (hfilter : data.geometry_filter_type = GeomType.all ∨
      data.geometry_filter_type = get_geometry_type feature.vt_geom_type)
    (hcp : 0 ≤ feature.cp_distance)
    (hrad : computed_meters feature ≤ data.radius) :
    (∀ r, value_is_duplicate r feature.has_id feature.id layer_name
        (get_geometry_type feature.vt_geom_type) feature.props = true ↔
      (r.layer_name = layer_name ∧
        r.original_geometry_type = get_geometry_type feature.vt_geom_type ∧
        ¬(r.has_id = true ∧ feature.has_id = true ∧ r.id ≠ feature.id) ∧
        r.properties_vector = feature.props)) ∧
    (∀ u e v, rq = u ++ e :: v →
      (∀ r ∈ u, value_is_duplicate r feature.has_id feature.id layer_name
        (get_geometry_type feature.vt_geom_type) feature.props = false) →
      value_is_duplicate e feature.has_id feature.id layer_name
        (get_geometry_type feature.vt_geom_type) feature.props = true →
      (distLe (some (computed_meters feature)) e.distance = true →
        process_feature data layer_name rq feature =
          stable_sort (rq.set u.length (insert_result e feature.props layer_name
            (computed_ll data feature) (computed_meters feature)
            (get_geometry_type feature.vt_geom_type) feature.has_id feature.id))) ∧
      (distLe (some (computed_meters feature)) e.distance = false →
        process_feature data layer_name rq feature = rq)) := by
  constructor
  · intro r
    exact value_is_duplicate_iff r feature.has_id feature.id layer_name
      (get_geometry_type feature.vt_geom_type) feature.props
  · intro u e v hrq hu he
    have hnfilter : ¬(data.geometry_filter_type ≠ GeomType.all ∧
        data.geometry_filter_type ≠ get_geometry_type feature.vt_geom_type) := by
      rcases hfilter with h | h
      · exact fun hc => hc.1 h
      · exact fun hc => hc.2 h
    have hncp : ¬ feature.cp_distance < 0 := not_lt.mpr hcp
    have hnrad : ¬ data.radius < computed_meters feature := not_lt.mpr hrad
    have hfind : dup_find data layer_name rq feature = some u.length := by
      rw [dup_find, if_pos hded, hrq]
      simpa using findIdx?_append_cons
        (fun result => value_is_duplicate result feature.has_id feature.id layer_name
          (get_geometry_type feature.vt_geom_type) feature.props) e u v 0 hu he
    have hgetD : rq.getD u.length defaultResult = e := by
      rw [hrq]
      exact getD_append_length defaultResult e u v
    constructor
    · intro hle
      unfold process_feature
      rw [if_neg hnfilter, if_neg hncp, if_neg hnrad, hfind]
      show (if distLe (some (computed_meters feature))
          (rq.getD u.length defaultResult).distance = true then
        stable_sort (rq.set u.length
          (insert_result (rq.getD u.length defaultResult) feature.props layer_name
            (computed_ll data feature) (computed_meters feature)
            (get_geometry_type feature.vt_geom_type) feature.has_id feature.id))
      else rq) = _
      rw [hgetD, if_pos hle]
    · intro hgt
      unfold process_feature
      rw [if_neg hnfilter, if_neg hncp, if_neg hnrad, hfind]
      show (if distLe (some (computed_meters feature))
          (rq.getD u.length defaultResult).distance = true then
        stable_sort (rq.set u.length
          (insert_result (rq.getD u.length defaultResult) feature.props layer_name
            (computed_ll data feature) (computed_meters feature)
            (get_geometry_type feature.vt_geom_type) feature.has_id feature.id))
      else rq) = _
      rw [hgetD, if_neg (by simp [hgt])]

/-- Witness for C3: the candidate `wFeatureDup` merges into the slot of `wEntry`. -/
theorem C3_dedupe_merge_witness :
    process_feature wQueryDed "L" [wEntry] wFeatureDup =
      stable_sort ([wEntry].set 0 (insert_result wEntry wFeatureDup.props "L"
        (computed_ll wQueryDed wFeatureDup) (computed_meters wFeatureDup)
        (get_geometry_type wFeatureDup.vt_geom_type) wFeatureDup.has_id
        wFeatureDup.id)) := by
  have h := (C3_dedupe_merge wQueryDed "L" [wEntry] wFeatureDup rfl (Or.inl rfl)
    (by decide) (by decide)).2 [] wEntry [] rfl
    (fun r hr => absurd hr (List.not_mem_nil r)) (by decide)
  exact h.1 (by decide)

/-- Counterexample to claim C1 as stated: in `c1Query` (dedupe on) the three
candidates A, B, C arrive in this order at equal distance 5, C being a duplicate of
A; C overwrites the slot of A, so the output lists the feature of the third
candidate before the feature of the second one even though their distances are
equal, violating the encounter-order tie-break.  The sorted half still holds. -/
theorem C1_counterexample :
    ValidQuery c1Query ∧ SortedOutput c1Query ∧ ¬ EncounterStable c1Query := by
  decide

/-- Counterexample to claim C4 as stated: `c4QueryTwice` supplies the very tile of
`c4QueryOnce` twice, holding every other request field constant, with dedupe on;
the one-tile query emits one feature but the two-tile query emits two, because the
feature with id 1 is blocked by the id-less duplicate at smaller distance on the
first pass but no longer on the second (its stored duplicate now carries id 2). -/
theorem C4_counterexample :
    c4QueryOnce.dedupe = true ∧ c4QueryTwice.dedupe = true ∧
    c4QueryOnce.tiles = [c4Tile] ∧ c4QueryTwice.tiles = [c4Tile, c4Tile] ∧
    ValidQuery c4QueryOnce ∧ ValidQuery c4QueryTwice ∧
    (vtquery c4QueryOnce).length = 1 ∧ (vtquery c4QueryTwice).length = 2 ∧
    vtquery c4QueryTwice ≠ vtquery c4QueryOnce := by
  decide

/-- Counterexample to claim C8 as stated: in `c8Query` (dedupe on) the id-less
candidate c merges into the slot of the id-1 entry a, leaving two live output slots
(the merged c and the id-2 entry b) that share layer, geometry type and property
list while the id component is vacuous because c carries no id. -/
theorem C8_counterexample :
    c8Query.dedupe = true ∧ ValidQuery c8Query ∧ ¬ DedupedOutput c8Query := by
  decide

theorem set_append_length {α : Type} (z e : α) :
    ∀ (u v : List α), (u ++ e :: v).set u.length z = u ++ z :: v := by
  intro u
  induction u with
  | nil => intro v; rfl
  | cons a u ih =>
    intro v
    rw [List.cons_append, List.length_cons, List.set_cons_succ, ih, List.cons_append]

theorem findIdx?_some_decomp {α : Type} {p : α → Bool} :
    ∀ {l : List α} {i : ℕ}, List.findIdx? p l = some i →
      ∃ u e v, l = u ++ e :: v ∧ u.length = i ∧ (∀ r ∈ u, p r = false) ∧ p e = true := by
  intro l
  induction l with
  | nil => intro i h; rw [List.findIdx?_nil] at h; cases h
  | cons a l ih =>
    intro i h
    rw [List.findIdx?_cons] at h
    by_cases hp : p a = true
    · rw [if_pos hp] at h
      refine ⟨[], a, l, rfl, ?_, ?_, hp⟩
      · simpa using (Option.some.inj h)
      · intro r hr; exact absurd hr (List.not_mem_nil r)
    · rw [if_neg hp, List.findIdx?_succ] at h
      cases hfl : List.findIdx? p l with
      | none => rw [hfl] at h; cases h
      | some j =>
        rw [hfl] at h
        rcases ih hfl with ⟨u, e, v, rfl, hlen, hu, he⟩
        refine ⟨a :: u, e, v, rfl, ?_, ?_, he⟩
        · have hj : j + 1 = i := by simpa using Option.some.inj h
          rw [List.length_cons, hlen, hj]
        · intro r hr
          rcases List.mem_cons.mp hr with rfl | hr
          · rw [← Bool.not_eq_true]; exact hp
          · exact hu r hr

/-- Truth-value flip for Bool equalities. -/
theorem bool_eq_false {b : Bool} (h : ¬ b = true) : b = false := by
  cases b
  · rfl
  · exact absurd rfl h

/-- Full case analysis of one traversal step: the candidate is filtered out, merged
into the first duplicate slot, discarded as a farther duplicate, written over the
back slot, or discarded as a non-improvement. -/
theorem process_feature_analysis (data : QueryData) (layer_name : String)
    (rq : List ResultObject) (feature : FeatureData) :
    (((data.geometry_filter_type ≠ GeomType.all ∧
        data.geometry_filter_type ≠ get_geometry_type feature.vt_geom_type) ∨
       feature.cp_distance < 0 ∨ data.radius < computed_meters feature) ∧
      process_feature data layer_name rq feature = rq) ∨
    ((data.geometry_filter_type = GeomType.all ∨
        data.geometry_filter_type = get_geometry_type feature.vt_geom_type) ∧
      0 ≤ feature.cp_distance ∧ computed_meters feature ≤ data.radius ∧
      ((∃ u e v, rq = u ++ e :: v ∧ data.dedupe = true ∧
          (∀ r ∈ u, value_is_duplicate r feature.has_id feature.id layer_name
            (get_geometry_type feature.vt_geom_type) feature.props = false) ∧
          value_is_duplicate e feature.has_id feature.id layer_name
            (get_geometry_type feature.vt_geom_type) feature.props = true ∧
          ((distLe (some (computed_meters feature)) e.distance = true ∧
            process_feature data layer_name rq feature =
              stable_sort (u ++ newResult data layer_name feature e :: v)) ∨
           (distLe (some (computed_meters feature)) e.distance = false ∧
            process_feature data layer_name rq feature = rq))) ∨
       (dup_find data layer_name rq feature = none ∧
         ((distLt (some (computed_meters feature))
              ((rq.getLast?).getD defaultResult).distance = true ∧
           process_feature data layer_name rq feature =
             stable_sort (rq.dropLast ++
               [newResult data layer_name feature ((rq.getLast?).getD defaultResult)])) ∨
          (distLt (some (computed_meters feature))
              ((rq.getLast?).getD defaultResult).distance = false ∧
           process_feature data layer_name rq feature = rq))))) := by
  by_cases h1 : data.geometry_filter_type ≠ GeomType.all ∧
      data.geometry_filter_type ≠ get_geometry_type feature.vt_geom_type
  · refine Or.inl ⟨Or.inl h1, ?_⟩
    unfold process_feature
    rw [if_pos h1]
  by_cases h2 : feature.cp_distance < 0
  · exact Or.inl ⟨Or.inr (Or.inl h2),
      process_feature_negcp_skip data layer_name rq feature h2⟩
  by_cases h3 : data.radius < computed_meters feature
  · exact Or.inl ⟨Or.inr (Or.inr h3),
      process_feature_radius_skip data layer_name rq feature h3⟩
  have hfilter : data.geometry_filter_type = GeomType.all ∨
      data.geometry_filter_type = get_geometry_type feature.vt_geom_type := by
    rcases not_and_or.mp h1 with h | h
    · exact Or.inl (not_ne_iff.mp h)
    · exact Or.inr (not_ne_iff.mp h)
  refine Or.inr ⟨hfilter, not_lt.mp h2, not_lt.mp h3, ?_⟩
  cases hfind : dup_find data layer_name rq feature with
  | some i =>
    have hdecomp : data.dedupe = true ∧
        List.findIdx? (fun result => value_is_duplicate result feature.has_id feature.id
          layer_name (get_geometry_type feature.vt_geom_type) feature.props) rq =
          some i := by
      rw [dup_find] at hfind
      by_cases hd : data.dedupe = true
      · rw [if_pos hd] at hfind; exact ⟨hd, hfind⟩
      · rw [if_neg hd] at hfind; cases hfind
    rcases findIdx?_some_decomp hdecomp.2 with ⟨u, e, v, hrq, hlen, hu, he⟩
    have hgetD : rq.getD i defaultResult = e := by
      rw [hrq, ← hlen]
      exact getD_append_length defaultResult e u v
    have hset2 : rq.set i (newResult data layer_name feature e) =
        u ++ newResult data layer_name feature e :: v := by
      rw [hrq, ← hlen]
      exact set_append_length _ e u v
    have hpf0 : process_feature data layer_name rq feature =
        if distLe (some (computed_meters feature))
            (rq.getD i defaultResult).distance = true then
          stable_sort (rq.set i (newResult data layer_name feature
            (rq.getD i defaultResult)))
        else rq := by
      unfold process_feature
      rw [if_neg h1, if_neg h2, if_neg h3, hfind]
      exact rfl
    have hpf : process_feature data layer_name rq feature =
        if distLe (some (computed_meters feature)) e.distance = true then
          stable_sort (u ++ newResult data layer_name feature e :: v)
        else rq := by
      rw [hpf0, hgetD, hset2]
    refine Or.inl ⟨u, e, v, hrq, hdecomp.1, hu, he, ?_⟩
    by_cases hle : distLe (some (computed_meters feature)) e.distance = true
    · exact Or.inl ⟨hle, by rw [hpf, if_pos hle]⟩
    · exact Or.inr ⟨bool_eq_false hle, by rw [hpf, if_neg hle]⟩
  | none =>
    refine Or.inr ⟨rfl, ?_⟩

    have hpf : process_feature data layer_name rq feature =
        if distLt (some (computed_meters feature))
            ((rq.getLast?).getD defaultResult).distance = true then
          stable_sort (rq.dropLast ++
            [newResult data layer_name feature ((rq.getLast?).getD defaultResult)])
        else rq := by
      unfold process_feature
      rw [if_neg h1, if_neg h2, if_neg h3, hfind]
      exact rfl
    by_cases hlt : distLt (some (computed_meters feature))
        ((rq.getLast?).getD defaultResult).distance = true
    · exact Or.inl ⟨hlt, by rw [hpf, if_pos hlt]⟩
    · exact Or.inr ⟨bool_eq_false hlt, by rw [hpf, if_neg hlt]⟩

/-- If a level slot relates by the dedupe key to the slot a candidate writes, and the
overwritten entry agrees with the candidate on id presence, then the overwritten
entry relates by the dedupe key to that slot as well. -/
theorem share_transfer {data : QueryData} {o : String × FeatureData} {e w : ResultObject}
    (he : value_is_duplicate e o.2.has_id o.2.id o.1
      (get_geometry_type o.2.vt_geom_type) o.2.props = true)
    (hhase : e.has_id = o.2.has_id)
    (hshare : ShareVec (newResult data o.1 o.2 e) w) :
    ShareVec e w := by
  obtain ⟨h1, h2, h3, h4⟩ := (value_is_duplicate_iff e o.2.has_id o.2.id o.1
    (get_geometry_type o.2.vt_geom_type) o.2.props).mp he
  obtain ⟨hs1, hs2, hs3, hs4⟩ := hshare
  refine ⟨h1.trans hs1, h2.trans hs2, ?_, h4.trans hs4⟩
  intro heh hwh
  have hfh : o.2.has_id = true := by rw [← hhase]; exact heh
  have heid : e.id = o.2.id := by
    by_contra hne
    exact h3 ⟨heh, hfh, hne⟩
  exact heid.trans (hs3 hfh hwh)

/-- A slot that relates by the dedupe key to the slot a candidate writes satisfies
the dedupe predicate for that candidate. -/
theorem share_to_duplicate {data : QueryData} {o : String × FeatureData}
    {old w : ResultObject}
    (hshare : ShareVec (newResult data o.1 o.2 old) w) :
    value_is_duplicate w o.2.has_id o.2.id o.1
      (get_geometry_type o.2.vt_geom_type) o.2.props = true := by
  obtain ⟨hs1, hs2, hs3, hs4⟩ := hshare
  rw [value_is_duplicate_iff]
  refine ⟨hs1.symm, hs2.symm, ?_, hs4.symm⟩
  rintro ⟨hwh, hfh, hne⟩
  exact hne (hs3 hfh hwh).symm

/-- Claim C8 amended: with dedupe on, when the features of the query all carry an id
or none does, no two live output slots share the dedupe key (layer name, geometry
type, id when both have ids, materialized property list). -/
theorem C8_dedupe_key_unique (data : QueryData) (h : ValidQuery data)
    (hded : data.dedupe = true)
    (hid : (∀ tile ∈ data.tiles, ∀ layer ∈ tile, ∀ f ∈ layer.features,
        f.has_id = true) ∨
      (∀ tile ∈ data.tiles, ∀ layer ∈ tile, ∀ f ∈ layer.features,
        f.has_id = false)) :
    DedupedOutput data := by
  have hfeat := offers_feature_ok h
  obtain ⟨b, hb⟩ : ∃ b : Bool, ∀ o ∈ offers data, o.2.has_id = b := by
    rcases hid with hid | hid
    · exact ⟨true, offers_forall hid⟩
    · exact ⟨false, offers_forall hid⟩
  have hsym : ∀ x y : ResultObject,
      (isLive x = true → isLive y = true → ¬ ShareVec x y) →
      (isLive y = true → isLive x = true → ¬ ShareVec y x) := by
    intro x y hxy hy hx hs
    exact hxy hx hy (ShareVec_symm hs)
  have key :
      (∀ e ∈ (offers data).foldl (process_offer data) (initial_queue data),
        isLive e = false → e.original_geometry_type = GeomType.unknown) ∧
      (∀ e ∈ (offers data).foldl (process_offer data) (initial_queue data),
        isLive e = true → e.has_id = b) ∧
      ((offers data).foldl (process_offer data) (initial_queue data)).Pairwise
        (fun x y => isLive x = true → isLive y = true → ¬ ShareVec x y) := by
    refine foldl_inv (P := fun rq : List ResultObject =>
      (∀ e ∈ rq, isLive e = false → e.original_geometry_type = GeomType.unknown) ∧
      (∀ e ∈ rq, isLive e = true → e.has_id = b) ∧
      rq.Pairwise (fun x y => isLive x = true → isLive y = true → ¬ ShareVec x y))
      ?_ ?_
    · refine ⟨?_, ?_, ?_⟩
      · intro e he _
        rw [List.eq_of_mem_replicate he]
        rfl
      · intro e he hl
        rw [List.eq_of_mem_replicate he] at hl
        exact absurd hl (by decide)
      · rw [initial_queue, List.pairwise_replicate]
        exact Or.inr fun hl => absurd hl (by decide)
    · intro rq o ho hP
      obtain ⟨hP1, hP2, hP3⟩ := hP
      have hpo : process_offer data rq o = process_feature data o.1 rq o.2 := rfl
      rw [hpo]
      rcases process_feature_analysis data o.1 rq o.2 with ⟨_, hpf⟩ |
        ⟨hfil, hcp, hrad, hcase⟩
      · rw [hpf]; exact ⟨hP1, hP2, hP3⟩
      have hgt : get_geometry_type o.2.vt_geom_type ≠ GeomType.unknown := by
        intro hg
        exact absurd hcp (not_le.mpr ((hfeat o ho).1 hg))
      rcases hcase with ⟨u, e, v, hrq, _, hu, he, hsub⟩ | ⟨hnone, hsub⟩
      · rcases hsub with ⟨hle, hpf⟩ | ⟨_, hpf⟩
        swap
        · rw [hpf]; exact ⟨hP1, hP2, hP3⟩
        rw [hpf]
        rw [hrq] at hP1 hP2 hP3
        obtain ⟨hedup1, hedup2, hedup3, hedup4⟩ :=
          (value_is_duplicate_iff e o.2.has_id o.2.id o.1
            (get_geometry_type o.2.vt_geom_type) o.2.props).mp he
        have hemem : e ∈ u ++ e :: v :=
          List.mem_append.mpr (Or.inr (List.mem_cons_self e v))
        have helive : isLive e = true := by
          by_cases hl : isLive e = true
          · exact hl
          · have h2 := hP1 e hemem (bool_eq_false hl)
            rw [h2] at hedup2
            exact absurd hedup2.symm hgt
        have hehas : e.has_id = o.2.has_id := by
          rw [hP2 e hemem helive, hb o ho]
        have hznew := newResult_fields data o.1 o.2 e
        have hzall : ∀ w ∈ u ++ v, isLive (newResult data o.1 o.2 e) = true →
            isLive w = true → ¬ ShareVec (newResult data o.1 o.2 e) w := by
          intro w hw _ hwlive hshare
          have hsev : ShareVec e w := share_transfer he hehas hshare
          have hP3' := hP3
          rw [List.pairwise_append] at hP3'
          obtain ⟨_, hpev, hcross⟩ := hP3'
          rcases List.mem_append.mp hw with hwu | hwv
          · exact (hcross w hwu e (List.mem_cons_self e v)) hwlive helive
              (ShareVec_symm hsev)
          · exact ((List.pairwise_cons.mp hpev).1 w hwv) helive hwlive hsev
        have hperm := stable_sort_perm (u ++ newResult data o.1 o.2 e :: v)
        refine ⟨?_, ?_, ?_⟩
        · intro x hx hl
          rcases List.mem_append.mp (hperm.mem_iff.mp hx) with hxu | hxz
          · exact hP1 x (List.mem_append.mpr (Or.inl hxu)) hl
          rcases List.mem_cons.mp hxz with rfl | hxv
          · rw [hznew.2.2.2.2.2.2] at hl
            exact absurd hl (by decide)
          · exact hP1 x (List.mem_append.mpr (Or.inr (List.mem_cons_of_mem e hxv))) hl
        · intro x hx hl
          rcases List.mem_append.mp (hperm.mem_iff.mp hx) with hxu | hxz
          · exact hP2 x (List.mem_append.mpr (Or.inl hxu)) hl
          rcases List.mem_cons.mp hxz with rfl | hxv
          · rw [hznew.2.2.1, hb o ho]
          · exact hP2 x (List.mem_append.mpr (Or.inr (List.mem_cons_of_mem e hxv))) hl
        · refine (List.Perm.pairwise_iff (fun hxy => hsym _ _ hxy) hperm).mpr ?_
          exact pairwise_replace_mid hsym hP3 hzall
      · rcases hsub with ⟨hlt, hpf⟩ | ⟨_, hpf⟩
        swap
        · rw [hpf]; exact ⟨hP1, hP2, hP3⟩
        rw [hpf]
        have hall : ∀ r ∈ rq, value_is_duplicate r o.2.has_id o.2.id o.1
            (get_geometry_type o.2.vt_geom_type) o.2.props = false := by
          rw [dup_find, if_pos hded] at hnone
          exact List.findIdx?_eq_none_iff.mp hnone
        have hznew := newResult_fields data o.1 o.2 ((rq.getLast?).getD defaultResult)
        have hzall : ∀ w ∈ rq.dropLast,
            isLive (newResult data o.1 o.2 ((rq.getLast?).getD defaultResult)) = true →
            isLive w = true →
            ¬ ShareVec (newResult data o.1 o.2 ((rq.getLast?).getD defaultResult)) w := by
          intro w hw _ _ hshare
          have h2 := share_to_duplicate hshare
          rw [hall w (List.dropLast_sublist rq |>.subset hw)] at h2
          cases h2
        have hperm := stable_sort_perm (rq.dropLast ++
          [newResult data o.1 o.2 ((rq.getLast?).getD defaultResult)])
        refine ⟨?_, ?_, ?_⟩
        · intro x hx hl
          rcases List.mem_append.mp (hperm.mem_iff.mp hx) with hxu | hxz
          · exact hP1 x (List.dropLast_sublist rq |>.subset hxu) hl
          · rw [List.mem_singleton.mp hxz, hznew.2.2.2.2.2.2] at hl
            exact absurd hl (by decide)
        · intro x hx hl
          rcases List.mem_append.mp (hperm.mem_iff.mp hx) with hxu | hxz
          · exact hP2 x (List.dropLast_sublist rq |>.subset hxu) hl
          · rw [List.mem_singleton.mp hxz]
            rw [hznew.2.2.1, hb o ho]
        · refine (List.Perm.pairwise_iff (fun hxy => hsym _ _ hxy) hperm).mpr ?_
          exact pairwise_dropLast_append hsym hP3 hzall
  rw [DedupedOutput, Execute_eq_offers, List.filter_map]
  have hcomp : (isLive ∘ materialize) = isLive := by
    funext r
    rfl
  rw [hcomp, List.pairwise_map]
  have hfiltered := List.Pairwise.filter isLive key.2.2
  refine hfiltered.imp_of_mem ?_
  intro a c ha hc hac hk
  exact hac (List.mem_filter.mp ha).2 (List.mem_filter.mp hc).2 hk

/-- Witness for the amended C8 on `c8QueryIds`, whose two features both carry ids. -/
theorem C8_dedupe_key_unique_witness :
    ValidQuery c8QueryIds ∧ c8QueryIds.dedupe = true ∧ DedupedOutput c8QueryIds :=
  ⟨by decide, rfl, C8_dedupe_key_unique c8QueryIds (by decide) rfl
    (Or.inl (by decide))⟩

/-! Infrastructure for the encounter-order stability theorem. -/

theorem stable_sort_snoc {l : List ResultObject} (hl : SortedQ l) (z : ResultObject) :
    stable_sort (l ++ [z]) = insertBefore z l := by
  unfold stable_sort
  rw [List.foldl_append,
    show l.foldl (fun acc x => insertBefore x acc) [] = stable_sort l from rfl,
    stable_sort_of_sorted hl]
  rfl

theorem distLt_lt_of_le {a b c : Option ℚ} (h1 : distLt a b = true)
    (h2 : distLt c b = false) : distLt a c = true := by
  cases a <;> cases b <;> cases c <;> simp_all [distLt] <;> linarith

theorem distLt_ne {a b : Option ℚ} (h : distLt a b = true) : a ≠ b := by
  cases a <;> cases b <;> simp_all [distLt]
  intro h2
  rw [h2] at h
  exact lt_irrefl _ h

theorem firstIdx_append_left {α : Type} [DecidableEq α] {x : α} :
    ∀ {l : List α} (t : List α), x ∈ l → firstIdx x (l ++ t) = firstIdx x l := by
  intro l
  induction l with
  | nil => intro t hx; exact absurd hx (List.not_mem_nil x)
  | cons a l ih =>
    intro t hx
    rw [List.cons_append]
    unfold firstIdx
    by_cases ha : a = x
    · rw [if_pos ha, if_pos ha]
    · have hxl : x ∈ l := by
        rcases List.mem_cons.mp hx with rfl | hx2
        · exact absurd rfl ha
        · exact hx2
      rw [if_neg ha, if_neg ha, ih t hxl]

theorem firstIdx_lt_length {α : Type} [DecidableEq α] {x : α} :
    ∀ {l : List α}, x ∈ l → firstIdx x l < l.length := by
  intro l
  induction l with
  | nil => intro hx; exact absurd hx (List.not_mem_nil x)
  | cons a l ih =>
    intro hx
    unfold firstIdx
    by_cases ha : a = x
    · rw [if_pos ha, List.length_cons]; omega
    · have hxl : x ∈ l := by
        rcases List.mem_cons.mp hx with rfl | hx2
        · exact absurd rfl ha
        · exact hx2
      rw [if_neg ha, List.length_cons]
      have h2 := ih hxl
      omega

theorem firstIdx_append_self {α : Type} [DecidableEq α] {x : α} :
    ∀ {l : List α} (t : List α), x ∉ l → firstIdx x (l ++ x :: t) = l.length := by
  intro l
  induction l with
  | nil =>
    intro t _
    rw [List.nil_append]
    unfold firstIdx
    rw [if_pos rfl, List.length_nil]
  | cons a l ih =>
    intro t hx
    rw [List.cons_append]
    unfold firstIdx
    rw [if_neg (fun ha => hx (by rw [← ha]; exact List.mem_cons_self a l)),
      ih t (fun hm => hx (List.mem_cons_of_mem a hm)), List.length_cons]

theorem nodup_map_inner {α β γ : Type} (g : α → β) (h : β → γ) :
    ∀ {l : List α}, (l.map fun a => h (g a)).Nodup → (l.map g).Nodup := by
  intro l
  induction l with
  | nil => intro _; exact List.nodup_nil
  | cons a l ih =>
    intro hnd
    rw [List.map_cons, List.nodup_cons] at hnd ⊢
    refine ⟨?_, ih hnd.2⟩
    intro hmem
    rcases List.mem_map.mp hmem with ⟨a2, ha2, heq⟩
    exact hnd.1 (List.mem_map.mpr ⟨a2, ha2, by rw [heq]⟩)

theorem firstIdx_map_comp {α β γ : Type} [DecidableEq β] [DecidableEq γ]
    (g : α → β) (h : β → γ) :
    ∀ {l : List α} {x : β}, (l.map fun a => h (g a)).Nodup → x ∈ l.map g →
      firstIdx (h x) (l.map fun a => h (g a)) = firstIdx x (l.map g) := by
  intro l
  induction l with
  | nil => intro x _ hx; exact absurd hx (List.not_mem_nil x)
  | cons a l ih =>
    intro x hnd hx
    rw [List.map_cons] at hnd hx ⊢
    rw [List.map_cons]
    unfold firstIdx
    by_cases hax : g a = x
    · rw [if_pos hax, if_pos (by rw [hax])]
    · have hxl : x ∈ l.map g := by
        rcases List.mem_cons.mp hx with heq | hx2
        · exact absurd heq.symm hax
        · exact hx2
      have hhax : ¬ h (g a) = h x := by
        intro heq
        have h1 : h x ∈ l.map fun a => h (g a) := by
          rcases List.mem_map.mp hxl with ⟨a2, ha2, heq2⟩
          exact List.mem_map.mpr ⟨a2, ha2, by rw [heq2]⟩
        rw [List.nodup_cons] at hnd
        exact hnd.1 (heq ▸ h1)
      rw [if_neg hax, if_neg hhax, ih (List.nodup_cons.mp hnd).2 hxl]

theorem newResult_eq_offerResult {data : QueryData} {o : String × FeatureData}
    {old : ResultObject} (h : old.properties_vector_materialized = []) :
    newResult data o.1 o.2 old = offerResult data o := by
  unfold newResult offerResult insert_result
  rw [h]
  rfl

theorem foldl_inv_prefix {α β : Type} {step : β → α → β}
    {P : List α → β → Prop} (full : List α) :
    ∀ (l pre : List α) (init : β), pre ++ l = full → P pre init →
      (∀ pre2 rest (b : β) (a : α), pre2 ++ a :: rest = full → P pre2 b →
        P (pre2 ++ [a]) (step b a)) →
      P full (l.foldl step init) := by
  intro l
  induction l with
  | nil =>
    intro pre init heq h0 _
    rw [List.append_nil] at heq
    rwa [heq] at h0
  | cons a l ih =>
    intro pre init heq h0 hstep
    have h1 : P (pre ++ [a]) (step init a) := hstep pre l init a heq h0
    exact ih (pre ++ [a]) (step init a)
      (by rw [List.append_assoc, List.singleton_append]; exact heq) h1 hstep

theorem dropWhile_head_prop {α : Type} (p : α → Bool) :
    ∀ (l : List α) {y : α} {ys : List α}, l.dropWhile p = y :: ys → p y = false := by
  intro l
  induction l with
  | nil => intro y ys h; cases h
  | cons a l ih =>
    intro y ys h
    rw [List.dropWhile_cons] at h
    by_cases hp : p a = true
    · rw [if_pos hp] at h
      exact ih h
    · rw [if_neg hp] at h
      cases h
      exact bool_eq_false hp

/-- Claim C1 amended: the output is always sorted by ascending distance.  With
dedupe disabled, a positive validated limit and pairwise distinct candidate
outputs, output features at equal distance appear in candidate encounter order.
(With dedupe enabled a merging candidate inherits the queue slot of the entry it
overwrites, so the encounter-order tie-break can fail; see the counterexample.) -/
theorem C1_sorted_stable (data : QueryData) :
    SortedOutput data ∧
    (data.dedupe = false → 1 ≤ data.num_results →
      ((offers data).map (offerOut data)).Nodup → EncounterStable data) := by
  constructor
  · rw [SortedOutput, vtquery, OnOK, List.pairwise_map]
    refine ((Execute_sorted data).filter isLive).imp ?_
    intro a b hab
    exact distLe_iff_not_distLt.mpr hab
  intro hded hnum hnd
  have hndR : ((offers data).map (offerResult data)).Nodup :=
    nodup_map_inner (offerResult data) (fun r => toOutFeature (materialize r)) hnd
  have key : (fun (pre : List (String × FeatureData)) (rq : List ResultObject) =>
      SortedQ rq ∧ rq.length = data.num_results ∧
      (∀ e ∈ rq, e.properties_vector_materialized = []) ∧
      (∀ e ∈ rq, isLive e = true → e ∈ pre.map (offerResult data)) ∧
      rq.Pairwise (fun x y => isLive x = true → isLive y = true →
        x.distance = y.distance →
        firstIdx x (pre.map (offerResult data)) <
          firstIdx y (pre.map (offerResult data))))
      (offers data)
      ((offers data).foldl (process_offer data) (initial_queue data)) := by
    refine foldl_inv_prefix (P := fun pre rq =>
        SortedQ rq ∧ rq.length = data.num_results ∧
        (∀ e ∈ rq, e.properties_vector_materialized = []) ∧
        (∀ e ∈ rq, isLive e = true → e ∈ pre.map (offerResult data)) ∧
        rq.Pairwise (fun x y => isLive x = true → isLive y = true →
          x.distance = y.distance →
          firstIdx x (pre.map (offerResult data)) <
            firstIdx y (pre.map (offerResult data))))
      (offers data) (offers data) [] (initial_queue data)
      (List.nil_append _) ?_ ?_
    · refine ⟨initial_queue_sorted data, List.length_replicate _ _, ?_, ?_, ?_⟩
      · intro e he
        rw [List.eq_of_mem_replicate he]
        rfl
      · intro e he hl
        rw [List.eq_of_mem_replicate he] at hl
        exact absurd hl (by decide)
      · rw [initial_queue, List.pairwise_replicate]
        exact Or.inr fun hl => absurd hl (by decide)
    intro pre2 rest rq o hfull hP
    obtain ⟨hs, hlen, hmat, hmem, hpw⟩ := hP
    have hne : rq ≠ [] := by
      intro hnil
      subst hnil
      rw [List.length_nil] at hlen
      omega
    have hmap2 : (pre2 ++ [o]).map (offerResult data) =
        pre2.map (offerResult data) ++ [offerResult data o] := by
      rw [List.map_append, List.map_singleton]
    have hznotmem : offerResult data o ∉ pre2.map (offerResult data) := by
      intro hzmem
      have hfm : (offers data).map (offerResult data) =
          pre2.map (offerResult data) ++
            offerResult data o :: rest.map (offerResult data) := by
        rw [← hfull, List.map_append, List.map_cons]
      rw [hfm] at hndR
      exact (List.disjoint_of_nodup_append hndR) hzmem
        (List.mem_cons_self _ _)
    have hlift : ∀ {x : ResultObject}, x ∈ pre2.map (offerResult data) →
        firstIdx x ((pre2 ++ [o]).map (offerResult data)) =
          firstIdx x (pre2.map (offerResult data)) := by
      intro x hx
      rw [hmap2]
      exact firstIdx_append_left _ hx
    have hmemlift : ∀ e ∈ rq, isLive e = true →
        e ∈ (pre2 ++ [o]).map (offerResult data) := by
      intro e he hl
      rw [hmap2]
      exact List.mem_append.mpr (Or.inl (hmem e he hl))
    have hpwlift : rq.Pairwise (fun x y => isLive x = true → isLive y = true →
        x.distance = y.distance →
        firstIdx x ((pre2 ++ [o]).map (offerResult data)) <
          firstIdx y ((pre2 ++ [o]).map (offerResult data))) := by
      refine hpw.imp_of_mem ?_
      intro x y hx hy hxy hlx hly hdist
      rw [hlift (hmem x hx hlx), hlift (hmem y hy hly)]
      exact hxy hlx hly hdist
    have hpo : process_offer data rq o = process_feature data o.1 rq o.2 := rfl
    rw [hpo]
    rcases process_feature_analysis data o.1 rq o.2 with ⟨_, hpf⟩ |
      ⟨_, _, _, hcase⟩
    · rw [hpf]
      exact ⟨hs, hlen, hmat, hmemlift, hpwlift⟩
    rcases hcase with ⟨_, _, _, _, hded2, _⟩ | ⟨_, hsub⟩
    · rw [hded] at hded2
      exact absurd hded2 Bool.false_ne_true
    rcases hsub with ⟨hlt, hpf⟩ | ⟨_, hpf⟩
    swap
    · rw [hpf]
      exact ⟨hs, hlen, hmat, hmemlift, hpwlift⟩
    rw [hpf]
    have hbackmat : ((rq.getLast?).getD defaultResult).properties_vector_materialized
        = [] := by
      cases hq : rq.getLast? with
      | none => rfl
      | some x => exact hmat x (List.mem_of_getLast?_eq_some hq)
    have hzeq : newResult data o.1 o.2 ((rq.getLast?).getD defaultResult) =
        offerResult data o := newResult_eq_offerResult hbackmat
    rw [hzeq]
    have hsdl : SortedQ rq.dropLast :=
      List.Pairwise.sublist (List.dropLast_sublist rq) hs
    rw [stable_sort_snoc hsdl]
    have hdlsub : ∀ x ∈ rq.dropLast, x ∈ rq :=
      fun x hx => List.dropLast_sublist rq |>.subset hx
    have hperm := insertBefore_perm (offerResult data o) rq.dropLast
    refine ⟨insertBefore_sorted _ hsdl, ?_, ?_, ?_, ?_⟩
    · rw [length_insertBefore, List.length_dropLast]
      omega
    · intro e he
      rcases List.mem_cons.mp (hperm.mem_iff.mp he) with rfl | he2
      · rfl
      · exact hmat e (hdlsub e he2)
    · intro e he hl
      rcases List.mem_cons.mp (hperm.mem_iff.mp he) with rfl | he2
      · rw [hmap2]
        exact List.mem_append.mpr (Or.inr (List.mem_singleton.mpr rfl))
      · exact hmemlift e (hdlsub e he2) hl
    · -- the tie-break invariant on the new queue
      have hzlive : isLive (offerResult data o) = true := rfl
      have hzidx : firstIdx (offerResult data o)
          ((pre2 ++ [o]).map (offerResult data)) =
            (pre2.map (offerResult data)).length := by
        rw [hmap2]
        have h2 : pre2.map (offerResult data) ++ [offerResult data o] =
            pre2.map (offerResult data) ++ offerResult data o :: [] := rfl
        rw [h2]
        exact firstIdx_append_self [] hznotmem
      have hdlpw : rq.dropLast.Pairwise (fun x y => isLive x = true →
          isLive y = true → x.distance = y.distance →
          firstIdx x ((pre2 ++ [o]).map (offerResult data)) <
            firstIdx y ((pre2 ++ [o]).map (offerResult data))) :=
        List.Pairwise.sublist (List.dropLast_sublist rq) hpwlift
      rw [insertBefore_eq_takeWhile]
      have hsplit : rq.dropLast.takeWhile
            (fun y => ! CompareDistance (offerResult data o) y) ++
          rq.dropLast.dropWhile
            (fun y => ! CompareDistance (offerResult data o) y) = rq.dropLast :=
        List.takeWhile_append_dropWhile _ _
      have hdlpw2 : (rq.dropLast.takeWhile
            (fun y => ! CompareDistance (offerResult data o) y) ++
          rq.dropLast.dropWhile
            (fun y => ! CompareDistance (offerResult data o) y)).Pairwise
          (fun x y => isLive x = true → isLive y = true →
            x.distance = y.distance →
            firstIdx x ((pre2 ++ [o]).map (offerResult data)) <
              firstIdx y ((pre2 ++ [o]).map (offerResult data))) := by
        rw [hsplit]
        exact hdlpw
      rw [List.pairwise_append] at hdlpw2
      obtain ⟨ptw, pdw, crossTD⟩ := hdlpw2
      rw [List.pairwise_append, List.pairwise_cons]
      have hdwlt : ∀ y ∈ rq.dropLast.dropWhile
          (fun w => ! CompareDistance (offerResult data o) w),
          distLt (offerResult data o).distance y.distance = true := by
        intro y hy
        cases hdw : rq.dropLast.dropWhile
            (fun w => ! CompareDistance (offerResult data o) w) with
        | nil => rw [hdw] at hy; exact absurd hy (List.not_mem_nil y)
        | cons hd tl =>
          have hhd : CompareDistance (offerResult data o) hd = true := by
            have h2 := dropWhile_head_prop
              (fun w => ! CompareDistance (offerResult data o) w) rq.dropLast hdw
            simpa using h2
          rw [hdw] at hy
          rcases List.mem_cons.mp hy with rfl | hy2
          · exact hhd
          · have hdwsorted : SortedQ (hd :: tl) := by
              rw [← hdw]
              exact List.Pairwise.sublist (List.dropWhile_sublist _) hsdl
            have hle2 : distLt y.distance hd.distance = false :=
              (List.pairwise_cons.mp hdwsorted).1 y hy2
            exact distLt_lt_of_le hhd hle2
      refine ⟨ptw, ⟨?_, pdw⟩, ?_⟩
      · intro y hy _ _ hdist
        exact absurd hdist (distLt_ne (hdwlt y hy))
      · intro a ha b hb
        rcases List.mem_cons.mp hb with rfl | hb2
        · intro hla _ _
          have hamem : a ∈ rq :=
            hdlsub a (hsplit ▸ List.mem_append.mpr (Or.inl ha))
          have haM := hmem a hamem hla
          rw [hlift haM, hzidx]
          exact firstIdx_lt_length haM
        · exact crossTD a ha b hb2
  -- transfer the invariant to the output
  rw [EncounterStable, vtquery, OnOK, Execute_eq_offers, List.filter_map]
  have hcomp : (isLive ∘ materialize) = isLive := by
    funext r
    rfl
  rw [hcomp, List.map_map, List.pairwise_map]
  simp only [Function.comp_apply]
  obtain ⟨_, _, _, hmemF, hpwF⟩ := key
  refine (hpwF.filter isLive).imp_of_mem ?_
  intro x y hx hy hxy hdist
  have hlx := (List.mem_filter.mp hx).2
  have hly := (List.mem_filter.mp hy).2
  have hxM := hmemF x (List.mem_filter.mp hx).1 hlx
  have hyM := hmemF y (List.mem_filter.mp hy).1 hly
  have hix := firstIdx_map_comp (offerResult data)
    (fun r => toOutFeature (materialize r)) hnd hxM
  have hiy := firstIdx_map_comp (offerResult data)
    (fun r => toOutFeature (materialize r)) hnd hyM
  have hOM : (offers data).map (offerOut data) =
      (offers data).map (fun a => toOutFeature (materialize (offerResult data a))) :=
    rfl
  rw [hOM, hix, hiy]
  exact hxy hlx hly hdist

/-- Witness for the amended C1 on the dedupe-off query `wQueryNoDedupe`. -/
theorem C1_sorted_stable_witness :
    SortedOutput wQueryNoDedupe ∧ wQueryNoDedupe.dedupe = false ∧
      EncounterStable wQueryNoDedupe :=
  ⟨(C1_sorted_stable wQueryNoDedupe).1, rfl,
    (C1_sorted_stable wQueryNoDedupe).2 rfl (by decide) (by decide)⟩

/-! Infrastructure for the monotone-limit theorem. -/

theorem distLt_irrefl (a : Option ℚ) : distLt a a = false := by
  cases a <;> simp [distLt]

theorem distLe_false_lt {a b : Option ℚ} (h : distLe a b = false) :
    distLt b a = true := by
  cases a <;> cases b <;> simp_all [distLt, distLe] <;> linarith

theorem distLt_false_of_le_lt {a b c : Option ℚ} (h1 : distLt a b = false)
    (h2 : distLe c a = false) : distLt c b = false := by
  cases a <;> cases b <;> cases c <;> simp_all [distLt, distLe] <;> linarith

theorem takeWhile_take {α : Type} (p : α → Bool) :
    ∀ (l : List α) (n : ℕ), (l.take n).takeWhile p = (l.takeWhile p).take n := by
  intro l
  induction l with
  | nil => intro n; simp
  | cons a l ih =>
    intro n
    cases n with
    | zero => simp
    | succ n =>
      rw [List.take_cons_succ, List.takeWhile_cons, List.takeWhile_cons]
      by_cases hp : p a = true
      · rw [if_pos hp, if_pos hp, List.take_cons_succ, ih]
      · rw [if_neg hp, if_neg hp, List.take_nil]

theorem dropWhile_take {α : Type} (p : α → Bool) :
    ∀ (l : List α) (n : ℕ),
      (l.take n).dropWhile p = (l.dropWhile p).take (n - (l.takeWhile p).length) := by
  intro l
  induction l with
  | nil => intro n; simp
  | cons a l ih =>
    intro n
    cases n with
    | zero => simp
    | succ n =>
      rw [List.take_cons_succ, List.dropWhile_cons, List.dropWhile_cons,
        List.takeWhile_cons]
      by_cases hp : p a = true
      · rw [if_pos hp, if_pos hp, if_pos hp, ih, List.length_cons]
        congr 1
        omega
      · rw [if_neg hp, if_neg hp, if_neg hp, List.length_nil, Nat.sub_zero,
          List.take_cons_succ]

theorem takeWhile_eq_self_of_all {α : Type} {p : α → Bool} :
    ∀ {l : List α}, (∀ y ∈ l, p y = true) → l.takeWhile p = l := by
  intro l
  induction l with
  | nil => intro _; rfl
  | cons a l ih =>
    intro h
    rw [List.takeWhile_cons, if_pos (h a (List.mem_cons_self a l)),
      ih fun y hy => h y (List.mem_cons_of_mem a hy)]

theorem takeWhile_length_le {α : Type} {p : α → Bool} {d : α} :
    ∀ {l : List α} {j : ℕ}, j < l.length → p (l.getD j d) = false →
      (l.takeWhile p).length ≤ j := by
  intro l
  induction l with
  | nil => intro j h _; rw [List.length_nil] at h; omega
  | cons a l ih =>
    intro j hj hp
    cases j with
    | zero =>
      rw [List.getD_cons_zero] at hp
      rw [List.takeWhile_cons, if_neg (by rw [hp]; exact Bool.false_ne_true),
        List.length_nil]
    | succ j =>
      rw [List.getD_cons_succ] at hp
      rw [List.takeWhile_cons]
      by_cases hpa : p a = true
      · rw [if_pos hpa, List.length_cons]
        have h2 := ih (by rw [List.length_cons] at hj; omega) hp
        omega
      · rw [if_neg hpa, List.length_nil]
        omega

theorem insertBefore_take_lt {z : ResultObject} {u : List ResultObject} {k : ℕ}
    (hk : 1 ≤ k) (hkl : k ≤ u.length)
    (hlt : CompareDistance z (u.getD (k - 1) defaultResult) = true) :
    (insertBefore z u).take k = insertBefore z (u.take (k - 1)) := by
  have htwlen : (u.takeWhile fun y => ! CompareDistance z y).length ≤ k - 1 := by
    refine takeWhile_length_le (d := defaultResult) (by omega) ?_
    rw [hlt]
    rfl
  have hsub : k - (u.takeWhile fun y => ! CompareDistance z y).length =
      (k - 1 - (u.takeWhile fun y => ! CompareDistance z y).length) + 1 := by
    omega
  rw [insertBefore_eq_takeWhile, insertBefore_eq_takeWhile, takeWhile_take,
    dropWhile_take,
    List.take_of_length_le (l := u.takeWhile fun y => ! CompareDistance z y) htwlen,
    List.take_append_eq_append_take,
    List.take_of_length_le
      (by omega : (u.takeWhile fun y => ! CompareDistance z y).length ≤ k),
    hsub, List.take_cons_succ]

theorem insertBefore_take_stay {z : ResultObject} {u : List ResultObject} {k : ℕ}
    (hall : ∀ y ∈ u.take k, CompareDistance z y = false)
    (hkl : k ≤ u.length) :
    (insertBefore z u).take k = u.take k := by
  have htw : (u.take k).takeWhile (fun y => ! CompareDistance z y) = u.take k :=
    takeWhile_eq_self_of_all fun y hy => by rw [hall y hy]; rfl
  rw [takeWhile_take] at htw
  rw [insertBefore_eq_takeWhile, List.take_append_eq_append_take]
  have hlen : k ≤ (u.takeWhile fun y => ! CompareDistance z y).length := by
    have h2 : ((u.takeWhile fun y => ! CompareDistance z y).take k).length =
        (u.take k).length := by rw [htw]
    rw [List.length_take, List.length_take] at h2
    omega
  rw [htw,
    show k - (u.takeWhile fun y => ! CompareDistance z y).length = 0 by omega,
    List.take_zero, List.append_nil]

theorem stable_sort_mid_insert {u v : List ResultObject} {e z : ResultObject}
    (hs : SortedQ (u ++ e :: v)) (hz : distLe z.distance e.distance = true) :
    stable_sort (u ++ z :: v) = insertBefore z u ++ v := by
  rw [stable_sort_mid hs hz, insertBefore_eq_takeWhile]
  simp

theorem findIdx?_take_of_lt {α : Type} {p : α → Bool} {l : List α} {i k : ℕ}
    (h : List.findIdx? p l = some i) (hik : i < k) :
    List.findIdx? p (l.take k) = some i := by
  rcases findIdx?_some_decomp h with ⟨u, e, v, rfl, hlen, hu, he⟩
  obtain ⟨j, hj⟩ : ∃ j, k - u.length = j + 1 := ⟨k - u.length - 1, by omega⟩
  have htake : (u ++ e :: v).take k = u ++ e :: v.take j := by
    rw [List.take_append_eq_append_take,
      List.take_of_length_le (by omega : u.length ≤ k), hj, List.take_cons_succ]
  rw [htake]
  have h2 := findIdx?_append_cons p e u (v.take j) 0 hu he
  rw [Nat.add_zero] at h2
  rw [h2, hlen]

theorem findIdx?_take_of_ge {α : Type} {p : α → Bool} {l : List α} {i k : ℕ}
    (h : List.findIdx? p l = some i) (hik : k ≤ i) :
    List.findIdx? p (l.take k) = none := by
  rcases findIdx?_some_decomp h with ⟨u, e, v, rfl, hlen, hu, he⟩
  rw [List.findIdx?_eq_none_iff]
  intro x hx
  have h2 : (u ++ e :: v).take k = u.take k := by
    rw [List.take_append_eq_append_take,
      show k - u.length = 0 by omega, List.take_zero, List.append_nil]
  rw [h2] at hx
  exact hu x (List.take_subset k u hx)

theorem findIdx?_take_none {α : Type} {p : α → Bool} {l : List α} {k : ℕ}
    (h : List.findIdx? p l = none) :
    List.findIdx? p (l.take k) = none := by
  rw [List.findIdx?_eq_none_iff] at h ⊢
  intro x hx
  exact h x (List.take_subset k l hx)

theorem getD_take {α : Type} {l : List α} {k i : ℕ} (d : α) (h : i < k) :
    (l.take k).getD i d = l.getD i d := by
  rw [List.getD_eq_getElem?_getD, List.getD_eq_getElem?_getD, List.getElem?_take,
    if_pos h]

theorem getLast_take_getD {α : Type} {l : List α} {k : ℕ} (d : α)
    (hk : 1 ≤ k) (hkl : k ≤ l.length) :
    ((l.take k).getLast?).getD d = l.getD (k - 1) d := by
  rw [List.getLast?_eq_getElem?, List.length_take, min_eq_left hkl,
    List.getElem?_take, if_pos (by omega), List.getD_eq_getElem?_getD]

theorem dropLast_take {α : Type} {l : List α} {k : ℕ} (hkl : k ≤ l.length) :
    (l.take k).dropLast = l.take (k - 1) := by
  rw [List.dropLast_eq_take, List.length_take, List.take_take]
  congr 1
  omega

theorem sorted_getD_le {l : List ResultObject} (hs : SortedQ l) (d : ResultObject)
    {i j : ℕ} (hij : i ≤ j) (hj : j < l.length) :
    distLt (l.getD j d).distance (l.getD i d).distance = false := by
  by_cases heq : i = j
  · rw [heq]
    exact distLt_irrefl _
  · have hlt : i < j := by omega
    have h2 := List.pairwise_iff_get.mp hs ⟨i, by omega⟩ ⟨j, hj⟩ hlt
    rw [List.getD_eq_getElem?_getD, List.getD_eq_getElem?_getD,
      List.getElem?_eq_getElem hj, List.getElem?_eq_getElem (by omega : i < l.length),
      Option.getD_some, Option.getD_some]
    exact h2

/-! Lemmas for the limit-monotonicity claim: truncation of the queue commutes with
one traversal step. -/

theorem take_append_left {α : Type} {u : List α} (w : List α) {k : ℕ}
    (h : k ≤ u.length) : (u ++ w).take k = u.take k := by
  rw [List.take_append_eq_append_take, show k - u.length = 0 by omega,
    List.take_zero, List.append_nil]

theorem take_append_full {α : Type} {u : List α} (w : List α) {k : ℕ}
    (h : u.length ≤ k) : (u ++ w).take k = u ++ w.take (k - u.length) := by
  rw [List.take_append_eq_append_take, List.take_of_length_le h]

theorem getD_append_left {α : Type} (d : α) {u : List α} (w : List α) {j : ℕ}
    (h : j < u.length) : (u ++ w).getD j d = u.getD j d := by
  rw [List.getD_eq_getElem?_getD, List.getD_eq_getElem?_getD,
    List.getElem?_append_left h]

theorem getLast_getD {α : Type} (l : List α) (d : α) :
    (l.getLast?).getD d = l.getD (l.length - 1) d := by
  rw [List.getLast?_eq_getElem?, List.getD_eq_getElem?_getD]

theorem sorted_take {l : List ResultObject} (hs : SortedQ l) (k : ℕ) :
    SortedQ (l.take k) :=
  List.Pairwise.sublist (List.take_sublist k l) hs

theorem newResult_congr_mat {data : QueryData} {layer_name : String}
    {feature : FeatureData} {old1 old2 : ResultObject}
    (h : old1.properties_vector_materialized = old2.properties_vector_materialized) :
    newResult data layer_name feature old1 = newResult data layer_name feature old2 := by
  unfold newResult insert_result
  rw [h]

theorem mat_process_feature (data : QueryData) (layer_name : String)
    {rq : List ResultObject} (feature : FeatureData)
    (hmat : ∀ r ∈ rq, r.properties_vector_materialized = []) :
    ∀ r ∈ process_feature data layer_name rq feature,
      r.properties_vector_materialized = [] := by
  intro r hr
  rcases mem_process_feature hr with h | ⟨_, _, _, _, _, _, _, _, _, _, old, hold, hm⟩
  · exact hmat r h
  · rw [hm]
    rcases hold with h2 | h2
    · exact hmat old h2
    · rw [h2]
      rfl

theorem compare_all_false {rq : List ResultObject} (hs : SortedQ rq) {m : Option ℚ}
    {k : ℕ} (hk : 1 ≤ k) (hklen : k ≤ rq.length)
    (hltk : distLt m (rq.getD (k - 1) defaultResult).distance = false) :
    ∀ y ∈ rq.take k, distLt m y.distance = false := by
  intro y hy
  rcases List.mem_iff_getElem.mp hy with ⟨j, hj, rfl⟩
  rw [List.length_take] at hj
  rw [List.getElem_take, show rq[j] = rq.getD j defaultResult from
    (List.getD_eq_getElem rq defaultResult (by omega)).symm]
  exact distLt_false_trans (sorted_getD_le hs defaultResult (by omega) (by omega)) hltk

/-- Truncating the queue to its first `k` slots commutes with one traversal step:
the step on the truncated queue equals the truncation of the step on the full
queue.  This is the heart of the limit-monotonicity claim. -/
theorem process_feature_take (data : QueryData) (layer_name : String)
    (rq : List ResultObject) (feature : FeatureData) {k : ℕ}
    (hs : SortedQ rq)
    (hmat : ∀ r ∈ rq, r.properties_vector_materialized = [])
    (hk : 1 ≤ k) (hkl : k ≤ rq.length) :
    process_feature data layer_name (rq.take k) feature =
      (process_feature data layer_name rq feature).take k := by
  have hne : rq ≠ [] := by
    intro h
    rw [h, List.length_nil] at hkl
    omega
  by_cases hkeq : k = rq.length
  · subst hkeq
    rw [List.take_length, List.take_of_length_le
      (le_of_eq (length_process_feature data layer_name feature hne))]
  have hklt : k < rq.length := by omega
  by_cases h1 : data.geometry_filter_type ≠ GeomType.all ∧
      data.geometry_filter_type ≠ get_geometry_type feature.vt_geom_type
  · have e1 : process_feature data layer_name (rq.take k) feature = rq.take k := by
      unfold process_feature
      rw [if_pos h1]
    have e2 : process_feature data layer_name rq feature = rq := by
      unfold process_feature
      rw [if_pos h1]
    rw [e1, e2]
  by_cases h2 : feature.cp_distance < 0
  · rw [process_feature_negcp_skip data layer_name (rq.take k) feature h2,
      process_feature_negcp_skip data layer_name rq feature h2]
  by_cases h3 : data.radius < computed_meters feature
  · rw [process_feature_radius_skip data layer_name (rq.take k) feature h3,
      process_feature_radius_skip data layer_name rq feature h3]
  have hpf_eq : ∀ q : List ResultObject, process_feature data layer_name q feature =
      match dup_find data layer_name q feature with
      | some i =>
        if distLe (some (computed_meters feature))
            (q.getD i defaultResult).distance then
          stable_sort (q.set i (newResult data layer_name feature
            (q.getD i defaultResult)))
        else q
      | none =>
        if distLt (some (computed_meters feature))
            ((q.getLast?).getD defaultResult).distance then
          stable_sort (q.dropLast ++
            [newResult data layer_name feature ((q.getLast?).getD defaultResult)])
        else q := by
    intro q
    unfold process_feature
    rw [if_neg h1, if_neg h2, if_neg h3]
    exact rfl
  cases hfind : dup_find data layer_name rq feature with
  | some i =>
    have hdecomp : data.dedupe = true ∧
        List.findIdx? (fun result => value_is_duplicate result feature.has_id feature.id
          layer_name (get_geometry_type feature.vt_geom_type) feature.props) rq =
          some i := by
      rw [dup_find] at hfind
      by_cases hd : data.dedupe = true
      · rw [if_pos hd] at hfind
        exact ⟨hd, hfind⟩
      · rw [if_neg hd] at hfind
        cases hfind
    rcases findIdx?_some_decomp hdecomp.2 with ⟨u, e, v, hrq, hlen, hu, he⟩
    have hemem : e ∈ rq := by
      rw [hrq]
      exact List.mem_append.mpr (Or.inr (List.mem_cons_self e v))
    have hgetD : rq.getD i defaultResult = e := by
      rw [hrq, ← hlen]
      exact getD_append_length defaultResult e u v
    have hilen : i < rq.length := by
      rw [hrq, List.length_append, List.length_cons]
      omega
    have heq_full : process_feature data layer_name rq feature =
        if distLe (some (computed_meters feature))
            (rq.getD i defaultResult).distance then
          stable_sort (rq.set i (newResult data layer_name feature
            (rq.getD i defaultResult)))
        else rq := by
      rw [hpf_eq rq, hfind]
    rw [hgetD] at heq_full
    have hset_full : rq.set i (newResult data layer_name feature e) =
        u ++ newResult data layer_name feature e :: v := by
      rw [hrq, ← hlen]
      exact set_append_length _ e u v
    have hs_full : SortedQ (u ++ e :: v) := by
      rw [← hrq]
      exact hs
    by_cases hik : i < k
    · have hfindk : dup_find data layer_name (rq.take k) feature = some i := by
        rw [dup_find, if_pos hdecomp.1]
        exact findIdx?_take_of_lt hdecomp.2 hik
      have heq_take : process_feature data layer_name (rq.take k) feature =
          if distLe (some (computed_meters feature))
              ((rq.take k).getD i defaultResult).distance then
            stable_sort ((rq.take k).set i (newResult data layer_name feature
              ((rq.take k).getD i defaultResult)))
          else rq.take k := by
        rw [hpf_eq (rq.take k), hfindk]
      rw [getD_take defaultResult hik, hgetD] at heq_take
      by_cases hle : distLe (some (computed_meters feature)) e.distance = true
      · rw [heq_full, heq_take, if_pos hle, if_pos hle]
        obtain ⟨j, hj⟩ : ∃ j, k - u.length = j + 1 := ⟨k - u.length - 1, by omega⟩
        have htake : rq.take k = u ++ e :: v.take j := by
          rw [hrq, take_append_full (e :: v) (by omega), hj, List.take_cons_succ]
        have hset_take : (rq.take k).set i (newResult data layer_name feature e) =
            u ++ newResult data layer_name feature e :: v.take j := by
          rw [htake, ← hlen]
          exact set_append_length _ e u (v.take j)
        have hzle : distLe (newResult data layer_name feature e).distance e.distance
            = true := hle
        have hs_take : SortedQ (u ++ e :: v.take j) := by
          rw [← htake]
          exact sorted_take hs k
        rw [hset_full, hset_take, stable_sort_mid_insert hs_take hzle,
          stable_sort_mid_insert hs_full hzle,
          take_append_full v (by rw [length_insertBefore]; omega)]
        congr 2
        rw [length_insertBefore]
        omega
      · rw [heq_full, heq_take, if_neg hle, if_neg hle]
    · have hik2 : k ≤ i := by omega
      have hku : k ≤ u.length := by omega
      have hfindk : dup_find data layer_name (rq.take k) feature = none := by
        rw [dup_find, if_pos hdecomp.1]
        exact findIdx?_take_of_ge hdecomp.2 hik2
      have heq_take : process_feature data layer_name (rq.take k) feature =
          if distLt (some (computed_meters feature))
              (((rq.take k).getLast?).getD defaultResult).distance then
            stable_sort ((rq.take k).dropLast ++
              [newResult data layer_name feature
                (((rq.take k).getLast?).getD defaultResult)])
          else rq.take k := by
        rw [hpf_eq (rq.take k), hfindk]
      rw [getLast_take_getD defaultResult hk hkl] at heq_take
      have hbackmem : rq.getD (k - 1) defaultResult ∈ rq := by
        rw [List.getD_eq_getElem rq defaultResult (by omega)]
        exact List.getElem_mem _
      have hgetDu : rq.getD (k - 1) defaultResult = u.getD (k - 1) defaultResult := by
        rw [hrq]
        exact getD_append_left defaultResult (e :: v) (by omega)
      by_cases hle : distLe (some (computed_meters feature)) e.distance = true
      · rw [heq_full, if_pos hle, heq_take, hset_full,
          stable_sort_mid_insert hs_full hle,
          take_append_left v (by rw [length_insertBefore]; omega)]
        by_cases hltk : distLt (some (computed_meters feature))
            (rq.getD (k - 1) defaultResult).distance = true
        · rw [if_pos hltk]
          have hzz : newResult data layer_name feature
              (rq.getD (k - 1) defaultResult) =
                newResult data layer_name feature e :=
            newResult_congr_mat (by rw [hmat _ hbackmem, hmat e hemem])
          rw [hzz, dropLast_take hkl, stable_sort_snoc (sorted_take hs (k - 1)),
            insertBefore_take_lt hk hku (by rw [← hgetDu]; exact hltk)]
          congr 1
          rw [hrq, take_append_left (e :: v) (by omega)]
        · have hltk2 : distLt (some (computed_meters feature))
              (rq.getD (k - 1) defaultResult).distance = false := bool_eq_false hltk
          rw [if_neg hltk]
          have hall : ∀ y ∈ u.take k, CompareDistance
              (newResult data layer_name feature e) y = false := by
            intro y hy
            have hy2 : y ∈ rq.take k := by
              rw [hrq, take_append_left (e :: v) hku]
              exact hy
            exact compare_all_false hs hk hkl hltk2 y hy2
          rw [insertBefore_take_stay hall hku, hrq, take_append_left (e :: v) hku]
      · have hle2 : distLe (some (computed_meters feature)) e.distance = false :=
          bool_eq_false hle
        have hbackle : distLt e.distance (rq.getD (k - 1) defaultResult).distance
            = false := by
          rw [← hgetD]
          exact sorted_getD_le hs defaultResult (by omega) hilen
        have hnolt : distLt (some (computed_meters feature))
            (rq.getD (k - 1) defaultResult).distance = false :=
          distLt_false_of_le_lt hbackle hle2
        rw [heq_full, if_neg hle, heq_take,
          if_neg (by rw [hnolt]; exact Bool.false_ne_true)]
  | none =>
    have hfindk : dup_find data layer_name (rq.take k) feature = none := by
      rw [dup_find] at hfind ⊢
      by_cases hd : data.dedupe = true
      · rw [if_pos hd] at hfind ⊢
        exact findIdx?_take_none hfind
      · rw [if_neg hd]
    have heq_full : process_feature data layer_name rq feature =
        if distLt (some (computed_meters feature))
            ((rq.getLast?).getD defaultResult).distance then
          stable_sort (rq.dropLast ++
            [newResult data layer_name feature ((rq.getLast?).getD defaultResult)])
        else rq := by
      rw [hpf_eq rq, hfind]
    have heq_take : process_feature data layer_name (rq.take k) feature =
        if distLt (some (computed_meters feature))
            (((rq.take k).getLast?).getD defaultResult).distance then
          stable_sort ((rq.take k).dropLast ++
            [newResult data layer_name feature
              (((rq.take k).getLast?).getD defaultResult)])
        else rq.take k := by
      rw [hpf_eq (rq.take k), hfindk]
    rw [getLast_take_getD defaultResult hk hkl] at heq_take
    rw [getLast_getD rq defaultResult] at heq_full
    have hbackkmem : rq.getD (k - 1) defaultResult ∈ rq := by
      rw [List.getD_eq_getElem rq defaultResult (by omega)]
      exact List.getElem_mem _
    have hbacknmem : rq.getD (rq.length - 1) defaultResult ∈ rq := by
      rw [List.getD_eq_getElem rq defaultResult (by omega)]
      exact List.getElem_mem _
    have hb_le : distLt (rq.getD (rq.length - 1) defaultResult).distance
        (rq.getD (k - 1) defaultResult).distance = false :=
      sorted_getD_le hs defaultResult (by omega) (by omega)
    by_cases hltn : distLt (some (computed_meters feature))
        (rq.getD (rq.length - 1) defaultResult).distance = true
    · rw [heq_full, if_pos hltn, heq_take]
      have hs_drop : SortedQ rq.dropLast :=
        List.Pairwise.sublist (List.dropLast_sublist rq) hs
      rw [stable_sort_snoc hs_drop]
      have hdrop_len : k ≤ rq.dropLast.length := by
        rw [List.length_dropLast]
        omega
      by_cases hltk : distLt (some (computed_meters feature))
          (rq.getD (k - 1) defaultResult).distance = true
      · have hzz : newResult data layer_name feature
            (rq.getD (k - 1) defaultResult) =
              newResult data layer_name feature
                (rq.getD (rq.length - 1) defaultResult) :=
          newResult_congr_mat (by rw [hmat _ hbackkmem, hmat _ hbacknmem])
        have hgetD_drop : rq.dropLast.getD (k - 1) defaultResult =
            rq.getD (k - 1) defaultResult := by
          rw [List.dropLast_eq_take]
          exact getD_take defaultResult (by omega)
        rw [if_pos hltk, hzz, dropLast_take hkl,
          stable_sort_snoc (sorted_take hs (k - 1)),
          insertBefore_take_lt hk hdrop_len (by rw [hgetD_drop]; exact hltk)]
        congr 1
        rw [List.dropLast_eq_take, List.take_take, inf_eq_min,
          min_eq_left (by omega : k - 1 ≤ rq.length - 1)]
      · have hltk2 : distLt (some (computed_meters feature))
            (rq.getD (k - 1) defaultResult).distance = false := bool_eq_false hltk
        rw [if_neg hltk]
        have hall : ∀ y ∈ rq.dropLast.take k, CompareDistance
            (newResult data layer_name feature
              (rq.getD (rq.length - 1) defaultResult)) y = false := by
          intro y hy
          have hy2 : y ∈ rq.take k := by
            rw [List.dropLast_eq_take, List.take_take,
              min_eq_left (by omega : k ≤ rq.length - 1)] at hy
            exact hy
          exact compare_all_false hs hk hkl hltk2 y hy2
        rw [insertBefore_take_stay hall hdrop_len, List.dropLast_eq_take,
          List.take_take, min_eq_left (by omega : k ≤ rq.length - 1)]
    · have hltn2 : distLt (some (computed_meters feature))
          (rq.getD (rq.length - 1) defaultResult).distance = false :=
        bool_eq_false hltn
      have hnoltk : distLt (some (computed_meters feature))
          (rq.getD (k - 1) defaultResult).distance = false :=
        distLt_false_trans hb_le hltn2
      rw [heq_full, if_neg hltn, heq_take,
        if_neg (by rw [hnoltk]; exact Bool.false_ne_true)]

theorem foldl_process_take (data : QueryData) {k : ℕ} (hk : 1 ≤ k) :
    ∀ (l : List (String × FeatureData)) (rq : List ResultObject),
      SortedQ rq → (∀ r ∈ rq, r.properties_vector_materialized = []) →
      k ≤ rq.length →
      l.foldl (process_offer data) (rq.take k) =
        (l.foldl (process_offer data) rq).take k := by
  intro l
  induction l with
  | nil =>
    intro rq _ _ _
    rfl
  | cons o l ih =>
    intro rq hs hmat hkl
    have hne : rq ≠ [] := by
      intro h
      rw [h, List.length_nil] at hkl
      omega
    rw [List.foldl_cons, List.foldl_cons,
      show process_offer data (rq.take k) o =
        process_feature data o.1 (rq.take k) o.2 from rfl,
      show process_offer data rq o = process_feature data o.1 rq o.2 from rfl,
      process_feature_take data o.1 rq o.2 hs hmat hk hkl]
    exact ih (process_feature data o.1 rq o.2)
      (sorted_process_feature data o.1 o.2 hs)
      (mat_process_feature data o.1 o.2 hmat)
      (by rw [length_process_feature data o.1 o.2 hne]; exact hkl)

theorem withLimit_offers (data : QueryData) (k : ℕ) :
    offers (withLimit data k) = offers data := rfl

theorem withLimit_process_offer (data : QueryData) (k : ℕ) :
    process_offer (withLimit data k) = process_offer data := rfl

theorem Execute_withLimit (data : QueryData) {k : ℕ} (hk : 1 ≤ k)
    (hkn : k ≤ data.num_results) :
    Execute (withLimit data k) = (Execute data).take k := by
  have hinit : initial_queue (withLimit data k) = (initial_queue data).take k := by
    show List.replicate k defaultResult =
      (List.replicate data.num_results defaultResult).take k
    rw [List.take_replicate, inf_eq_min, min_eq_left hkn]
  have hmatinit : ∀ r ∈ initial_queue data,
      r.properties_vector_materialized = [] := by
    intro r hr
    rw [List.eq_of_mem_replicate hr]
    rfl
  have hleninit : k ≤ (initial_queue data).length := by
    rw [show (initial_queue data).length = data.num_results from
      List.length_replicate data.num_results defaultResult]
    exact hkn
  rw [Execute_eq_offers, Execute_eq_offers, withLimit_offers,
    withLimit_process_offer, hinit,
    foldl_process_take data hk (offers data) (initial_queue data)
      (initial_queue_sorted data) hmatinit hleninit, List.map_take]

/-- Claim C9: for every valid query, increasing `limit` while holding all other
request fields constant produces an output feature list of which the
smaller-limit output is a prefix.  Equivalently, the output at the smaller
validated limit `k` is a prefix of the output at limit `num_results ≥ k`. -/
theorem C9_monotone_limit (data : QueryData) (k : ℕ) (h : ValidQuery data)
    (hk : 1 ≤ k) (hkn : k ≤ data.num_results) :
    vtquery (withLimit data k) <+: vtquery data := by
  refine ⟨(((Execute data).drop k).filter isLive).map toOutFeature, ?_⟩
  show ((Execute (withLimit data k)).filter isLive).map toOutFeature ++
      (((Execute data).drop k).filter isLive).map toOutFeature =
    ((Execute data).filter isLive).map toOutFeature
  rw [Execute_withLimit data hk hkn, ← List.map_append, ← List.filter_append,
    List.take_append_drop]

theorem C9_monotone_limit_witness :
    ValidQuery wQuery ∧ 1 ≤ 1 ∧ 1 ≤ wQuery.num_results ∧
      vtquery (withLimit wQuery 1) <+: vtquery wQuery :=
  ⟨by decide, by decide, by decide,
    C9_monotone_limit wQuery 1 (by decide) (by decide) (by decide)⟩

/-! Lemmas for the duplicate-tile idempotence claim. -/

theorem resultObject_ext {r s : ResultObject}
    (h1 : r.properties_vector = s.properties_vector)
    (h2 : r.properties_vector_materialized = s.properties_vector_materialized)
    (h3 : r.layer_name = s.layer_name)
    (h4 : r.coordinates = s.coordinates)
    (h5 : r.distance = s.distance)
    (h6 : r.original_geometry_type = s.original_geometry_type)
    (h7 : r.has_id = s.has_id)
    (h8 : r.id = s.id) : r = s := by
  cases r
  cases s
  simp_all

theorem self_dup (data : QueryData) (o : String × FeatureData) :
    value_is_duplicate (offerResult data o) o.2.has_id o.2.id o.1
      (get_geometry_type o.2.vt_geom_type) o.2.props = true := by
  rw [value_is_duplicate_iff]
  refine ⟨rfl, rfl, ?_, rfl⟩
  rintro ⟨h1, h2, h3⟩
  exact h3 rfl

theorem foldl_fixpoint {α β : Type} {f : β → α → β} {l : List α} {b : β}
    (h : ∀ a ∈ l, f b a = b) : l.foldl f b = b := by
  induction l with
  | nil => rfl
  | cons a l ih =>
    rw [List.foldl_cons, h a (List.mem_cons_self a l)]
    exact ih fun x hx => h x (List.mem_cons_of_mem a hx)

theorem foldl_replicate_const {α β : Type} {f : β → α → β} {a : α} {c : β}
    (hfix : f c a = c) : ∀ N : ℕ, (List.replicate N a).foldl f c = c := by
  intro N
  induction N with
  | zero => rfl
  | succ M ih => rw [List.replicate_succ a M, List.foldl_cons, hfix, ih]

theorem foldl_replicate_of_fix {α β : Type} {f : β → α → β} {a : α} {b : β}
    (hfix : f (f b a) a = f b a) {N : ℕ} (hN : 1 ≤ N) :
    (List.replicate N a).foldl f b = f b a := by
  cases N with
  | zero => exact absurd hN (by omega)
  | succ M =>
    rw [List.replicate_succ a M, List.foldl_cons]
    exact foldl_replicate_const hfix M

theorem back_mem {l : List ResultObject} (hne : l ≠ []) :
    (l.getLast?).getD defaultResult ∈ l := by
  rw [List.getLast?_eq_getLast l hne]
  exact List.getLast_mem hne

theorem dropLast_le_back {b : List ResultObject} (hs : SortedQ b) (hne : b ≠ [])
    {y : ResultObject} (hy : y ∈ b.dropLast) :
    distLt ((b.getLast?).getD defaultResult).distance y.distance = false := by
  have hlast : (b.getLast?).getD defaultResult = b.getLast hne := by
    rw [List.getLast?_eq_getLast b hne]
    rfl
  have hsplit : b.dropLast ++ [b.getLast hne] = b :=
    List.dropLast_append_getLast hne
  have hs2 : SortedQ (b.dropLast ++ [b.getLast hne]) := by
    rw [hsplit]
    exact hs
  have h3 := (List.pairwise_append.mp hs2).2.2 y hy (b.getLast hne)
    (List.mem_singleton_self _)
  rw [hlast]
  exact h3

theorem all_le_back_insert {b : List ResultObject} {z : ResultObject} {w : Option ℚ}
    (hs : SortedQ b) (hne : b ≠ [])
    (hble : distLt w ((b.getLast?).getD defaultResult).distance = false)
    (hz : distLt z.distance ((b.getLast?).getD defaultResult).distance = true) :
    ∀ y ∈ insertBefore z b.dropLast, distLt w y.distance = false := by
  intro y hy
  rcases List.mem_cons.mp (((insertBefore_perm z b.dropLast).mem_iff).mp hy) with
    rfl | hy2
  · exact distLt_false_of_le hble (distLe_of_distLt hz)
  · exact distLt_false_trans (dropLast_le_back hs hne hy2) hble

theorem final_queue_mat (data : QueryData) :
    ∀ r ∈ (offers data).foldl (process_offer data) (initial_queue data),
      r.properties_vector_materialized = [] := by
  refine foldl_inv (P := fun rq : List ResultObject =>
    ∀ r ∈ rq, r.properties_vector_materialized = []) ?_ ?_
  · intro r hr
    rw [List.eq_of_mem_replicate hr]
    rfl
  · intro b a _ hb
    exact mat_process_feature data a.1 a.2 hb

/-- Invariant of the traversal when no two stream candidates are related by the
duplicate predicate: every queue slot is either still a sentinel or holds exactly
the record written by one of the candidates seen so far, and every candidate that
passed the filter checks either still owns a slot or cannot beat the back slot. -/
theorem final_queue_invariant (data : QueryData) (hvalid : ValidQuery data)
    (hdistinct : (offers data).Pairwise fun o1 o2 =>
      dupCand data o1 o2 = false ∧ dupCand data o2 o1 = false) :
    (∀ r ∈ (offers data).foldl (process_offer data) (initial_queue data),
        r = defaultResult ∨ ∃ o ∈ offers data, r = offerResult data o) ∧
      ∀ o ∈ offers data,
        (data.geometry_filter_type = GeomType.all ∨
          data.geometry_filter_type = get_geometry_type o.2.vt_geom_type) →
        0 ≤ o.2.cp_distance → computed_meters o.2 ≤ data.radius →
        (offerResult data o ∈ (offers data).foldl (process_offer data)
            (initial_queue data) ∨
          distLt (some (computed_meters o.2))
            ((((offers data).foldl (process_offer data)
              (initial_queue data)).getLast?).getD defaultResult).distance = false) := by
  suffices h : SortedQ ((offers data).foldl (process_offer data)
        (initial_queue data)) ∧
      ((offers data).foldl (process_offer data) (initial_queue data)).length =
        data.num_results ∧
      (∀ r ∈ (offers data).foldl (process_offer data) (initial_queue data),
        r.properties_vector_materialized = []) ∧
      (∀ r ∈ (offers data).foldl (process_offer data) (initial_queue data),
        r = defaultResult ∨ ∃ o ∈ offers data, r = offerResult data o) ∧
      ∀ o ∈ offers data,
        (data.geometry_filter_type = GeomType.all ∨
          data.geometry_filter_type = get_geometry_type o.2.vt_geom_type) →
        0 ≤ o.2.cp_distance → computed_meters o.2 ≤ data.radius →
        (offerResult data o ∈ (offers data).foldl (process_offer data)
            (initial_queue data) ∨
          distLt (some (computed_meters o.2))
            ((((offers data).foldl (process_offer data)
              (initial_queue data)).getLast?).getD defaultResult).distance = false) by
    exact ⟨h.2.2.2.1, h.2.2.2.2⟩
  refine foldl_inv_prefix (P := fun pre Q =>
      SortedQ Q ∧ Q.length = data.num_results ∧
      (∀ r ∈ Q, r.properties_vector_materialized = []) ∧
      (∀ r ∈ Q, r = defaultResult ∨ ∃ o ∈ pre, r = offerResult data o) ∧
      ∀ o ∈ pre,
        (data.geometry_filter_type = GeomType.all ∨
          data.geometry_filter_type = get_geometry_type o.2.vt_geom_type) →
        0 ≤ o.2.cp_distance → computed_meters o.2 ≤ data.radius →
        (offerResult data o ∈ Q ∨
          distLt (some (computed_meters o.2))
            ((Q.getLast?).getD defaultResult).distance = false))
    (offers data) (offers data) [] (initial_queue data) (List.nil_append _) ?_ ?_
  · refine ⟨initial_queue_sorted data, ?_, ?_, ?_, ?_⟩
    · exact List.length_replicate data.num_results defaultResult
    · intro r hr
      rw [List.eq_of_mem_replicate hr]
      rfl
    · intro r hr
      exact Or.inl (List.eq_of_mem_replicate hr)
    · intro o ho
      exact absurd ho (List.not_mem_nil o)
  · intro pre2 rest b a hfull hP
    obtain ⟨hs, hlen, hmat, hent, hpre⟩ := hP
    have hone : 1 ≤ data.num_results := hvalid.2.1
    have hne : b ≠ [] := by
      intro hc
      rw [hc, List.length_nil] at hlen
      omega
    have hain : a ∈ offers data := by
      rw [← hfull]
      exact List.mem_append.mpr (Or.inr (List.mem_cons_self a rest))
    have hOK : FeatureOK a.2 := offers_feature_ok hvalid a hain
    refine ⟨sorted_process_feature data a.1 a.2 hs, ?_,
      mat_process_feature data a.1 a.2 hmat, ?_, ?_⟩
    · show (process_feature data a.1 b a.2).length = data.num_results
      rw [length_process_feature data a.1 a.2 hne]
      exact hlen
    · intro r hr
      have hr2 : r ∈ process_feature data a.1 b a.2 := hr
      rcases mem_process_feature hr2 with h |
        ⟨_, _, _, hpv, hln, hco, hdst, hog, hhid, hid, old, hold, hm⟩
      · rcases hent r h with h2 | ⟨p, hp, h2⟩
        · exact Or.inl h2
        · exact Or.inr ⟨p, List.mem_append.mpr (Or.inl hp), h2⟩
      · refine Or.inr ⟨a, List.mem_append.mpr (Or.inr (List.mem_singleton_self a)), ?_⟩
        have hmold : old.properties_vector_materialized = [] := by
          rcases hold with h2 | h2
          · exact hmat old h2
          · rw [h2]
            rfl
        exact resultObject_ext hpv (by rw [hm, hmold]; rfl) hln hco hdst hog hhid hid
    · intro p hp h1 h2 h3
      rcases process_feature_analysis data a.1 b a.2 with ⟨hskip, heq⟩ |
        ⟨hfil, hcp0, hrad0, hcases⟩
      · have hstep2 : process_offer data b a = b := heq
        rw [hstep2]
        rcases List.mem_append.mp hp with hp2 | hp2
        · exact hpre p hp2 h1 h2 h3
        · have hpa : p = a := by simpa using hp2
          subst hpa
          exfalso
          rcases hskip with hc | hc | hc
          · rcases h1 with h4 | h4
            · exact hc.1 h4
            · exact hc.2 h4
          · exact absurd hc (not_lt.mpr h2)
          · exact absurd hc (not_lt.mpr h3)
      rcases hcases with ⟨u, e, v, hbq, hded2, hu, he, hmerge⟩ | ⟨hfind, hfresh⟩
      · exfalso
        have hemem : e ∈ b := by
          rw [hbq]
          exact List.mem_append.mpr (Or.inr (List.mem_cons_self e v))
        rcases hent e hemem with hdef | ⟨p2, hp2, hpe⟩
        · obtain ⟨hel, heg, hei, hep⟩ := (value_is_duplicate_iff e a.2.has_id a.2.id
            a.1 (get_geometry_type a.2.vt_geom_type) a.2.props).mp he
          rw [hdef] at heg
          exact absurd (hOK.1 heg.symm) (not_lt.mpr hcp0)
        · have hdup : dupCand data a p2 = true := by
            show value_is_duplicate (offerResult data p2) a.2.has_id a.2.id a.1
              (get_geometry_type a.2.vt_geom_type) a.2.props = true
            rw [← hpe]
            exact he
          rw [← hfull] at hdistinct
          have hpair := (List.pairwise_append.mp hdistinct).2.2 p2 hp2 a
            (List.mem_cons_self a rest)
          exact Bool.noConfusion (hdup.symm.trans hpair.2)
      · rcases hfresh with ⟨hlt, heq⟩ | ⟨hltf, heq⟩
        swap
        · have hstep2 : process_offer data b a = b := heq
          rw [hstep2]
          rcases List.mem_append.mp hp with hp2 | hp2
          · exact hpre p hp2 h1 h2 h3
          · have hpa : p = a := by simpa using hp2
            subst hpa
            exact Or.inr hltf
        · have hbackmem : (b.getLast?).getD defaultResult ∈ b := back_mem hne
          have hmatback :
              ((b.getLast?).getD defaultResult).properties_vector_materialized
                = [] := hmat _ hbackmem
          have hzoff : newResult data a.1 a.2 ((b.getLast?).getD defaultResult) =
              offerResult data a := newResult_eq_offerResult hmatback
          have hsdrop : SortedQ b.dropLast :=
            List.Pairwise.sublist (List.dropLast_sublist b) hs
          have hstep2 : process_offer data b a =
              insertBefore (offerResult data a) b.dropLast := by
            show process_feature data a.1 b a.2 = _
            rw [heq, hzoff, stable_sort_snoc hsdrop]
          have hnepf : insertBefore (offerResult data a) b.dropLast ≠ [] := by
            intro hc
            have h4 := length_insertBefore (offerResult data a) b.dropLast
            rw [hc, List.length_nil] at h4
            omega
          have hclose : ∀ w : Option ℚ,
              distLt w ((b.getLast?).getD defaultResult).distance = false →
              distLt w (((process_offer data b a).getLast?).getD
                defaultResult).distance = false := by
            intro w hble
            rw [hstep2]
            exact all_le_back_insert (z := offerResult data a) hs hne hble hlt _
              (back_mem hnepf)
          rcases List.mem_append.mp hp with hp2 | hp2
          · rcases hpre p hp2 h1 h2 h3 with hmem | hlt2
            · by_cases hdropmem : offerResult data p ∈ b.dropLast
              · refine Or.inl ?_
                rw [hstep2]
                exact ((insertBefore_perm (offerResult data a)
                  b.dropLast).mem_iff).mpr (List.mem_cons_of_mem _ hdropmem)
              · have hlast : (b.getLast?).getD defaultResult = b.getLast hne := by
                  rw [List.getLast?_eq_getLast b hne]
                  rfl
                have hpback : offerResult data p =
                    (b.getLast?).getD defaultResult := by
                  have hsplit : b.dropLast ++ [b.getLast hne] = b :=
                    List.dropLast_append_getLast hne
                  rw [← hsplit] at hmem
                  rcases List.mem_append.mp hmem with h4 | h4
                  · exact absurd h4 hdropmem
                  · rw [hlast]
                    simpa using h4
                refine Or.inr (hclose _ ?_)
                rw [← hpback]
                exact distLt_irrefl _
            · exact Or.inr (hclose _ hlt2)
          · have hpa : p = a := by simpa using hp2
            refine Or.inl ?_
            rw [hstep2, hpa]
            exact ((insertBefore_perm (offerResult data a) b.dropLast).mem_iff).mpr
              (List.mem_cons_self _ _)

/-- On the final queue of a pairwise-distinct candidate stream, re-processing any
candidate of the stream leaves the queue unchanged: a found duplicate is the
candidate's own slot and is overwritten with itself, and a candidate without a
slot cannot beat the back slot. -/
theorem process_offer_fixpoint (data : QueryData) (hvalid : ValidQuery data)
    (hded : data.dedupe = true)
    (hdistinct : (offers data).Pairwise fun o1 o2 =>
      dupCand data o1 o2 = false ∧ dupCand data o2 o1 = false)
    (Q : List ResultObject) (hs : SortedQ Q)
    (hmat : ∀ r ∈ Q, r.properties_vector_materialized = [])
    (hent : ∀ r ∈ Q, r = defaultResult ∨ ∃ p ∈ offers data, r = offerResult data p)
    (hpre : ∀ p ∈ offers data,
      (data.geometry_filter_type = GeomType.all ∨
        data.geometry_filter_type = get_geometry_type p.2.vt_geom_type) →
      0 ≤ p.2.cp_distance → computed_meters p.2 ≤ data.radius →
      (offerResult data p ∈ Q ∨
        distLt (some (computed_meters p.2))
          ((Q.getLast?).getD defaultResult).distance = false))
    (o : String × FeatureData) (ho : o ∈ offers data) :
    process_offer data Q o = Q := by
  have hOK : FeatureOK o.2 := offers_feature_ok hvalid o ho
  show process_feature data o.1 Q o.2 = Q
  rcases process_feature_analysis data o.1 Q o.2 with ⟨_, heq⟩ |
    ⟨hfil, hcp0, hrad0, hcases⟩
  · exact heq
  rcases hcases with ⟨u, e, v, hbq, hded2, hu, he, hmerge⟩ | ⟨hfind, hfresh⟩
  · have hemem : e ∈ Q := by
      rw [hbq]
      exact List.mem_append.mpr (Or.inr (List.mem_cons_self e v))
    have hea : e = offerResult data o := by
      rcases hent e hemem with hdef | ⟨p2, hp2, hpe⟩
      · exfalso
        obtain ⟨hel, heg, hei, hep⟩ := (value_is_duplicate_iff e o.2.has_id o.2.id
          o.1 (get_geometry_type o.2.vt_geom_type) o.2.props).mp he
        rw [hdef] at heg
        exact absurd (hOK.1 heg.symm) (not_lt.mpr hcp0)
      · by_cases hpo : p2 = o
        · rw [hpe, hpo]
        · exfalso
          have hdup : dupCand data o p2 = true := by
            show value_is_duplicate (offerResult data p2) o.2.has_id o.2.id o.1
              (get_geometry_type o.2.vt_geom_type) o.2.props = true
            rw [← hpe]
            exact he
          have hsym : Symmetric (fun o1 o2 : String × FeatureData =>
              dupCand data o1 o2 = false ∧ dupCand data o2 o1 = false) := by
            intro x y hxy
            exact ⟨hxy.2, hxy.1⟩
          have hpair := List.Pairwise.forall hsym hdistinct hp2 ho hpo
          exact Bool.noConfusion (hdup.symm.trans hpair.2)
    have hedist : distLe (some (computed_meters o.2)) e.distance = true := by
      rw [hea]
      exact distLe_refl _
    rcases hmerge with ⟨_, heq⟩ | ⟨hle, _⟩
    · have hnewe : newResult data o.1 o.2 e = e := by
        rw [hea]
        exact newResult_eq_offerResult rfl
      rw [heq, hnewe, ← hbq]
      exact stable_sort_of_sorted hs
    · exact absurd (hedist.symm.trans hle) Bool.noConfusion
  · rcases hfresh with ⟨hlt, _⟩ | ⟨_, heq⟩
    · exfalso
      rcases hpre o ho hfil hcp0 hrad0 with hmem | hltf
      · rw [dup_find, if_pos hded, List.findIdx?_eq_none_iff] at hfind
        have h4 := hfind (offerResult data o) hmem
        exact Bool.noConfusion ((self_dup data o).symm.trans h4)
      · exact Bool.noConfusion (hlt.symm.trans hltf)
    · exact heq

/-- Claim C4 (corrected): with dedupe enabled, for a valid single-tile query none
of whose candidate features are related by the duplicate predicate, supplying the
same tile buffer N times (N ≥ 1), holding all other request fields constant,
yields the same FeatureCollection as supplying that tile buffer once. -/
theorem C4_idempotent_tiles (data : QueryData) (T : TileData) (N : ℕ)
    (hN : 1 ≤ N) (hT : data.tiles = [T]) (hded : data.dedupe = true)
    (hvalid : ValidQuery data)
    (hdistinct : (offers data).Pairwise fun o1 o2 =>
      dupCand data o1 o2 = false ∧ dupCand data o2 o1 = false) :
    vtquery { data with tiles := List.replicate N T } = vtquery data := by
  have hinv := final_queue_invariant data hvalid hdistinct
  have hfixQ : ∀ o ∈ offers data, process_offer data
      ((offers data).foldl (process_offer data) (initial_queue data)) o =
      (offers data).foldl (process_offer data) (initial_queue data) := by
    intro o ho
    exact process_offer_fixpoint data hvalid hded hdistinct _
      (final_queue_sorted data) (final_queue_mat data) hinv.1 hinv.2 o ho
  have hfix1 : (offers data).foldl (process_offer data)
      ((offers data).foldl (process_offer data) (initial_queue data)) =
      (offers data).foldl (process_offer data) (initial_queue data) :=
    foldl_fixpoint hfixQ
  have hSoff : offers data = T.flatMap (layer_offers data) := by
    show data.tiles.flatMap (fun tile => tile.flatMap (layer_offers data)) =
      T.flatMap (layer_offers data)
    rw [hT, List.flatMap_cons, List.flatMap_nil, List.append_nil]
  have hfixT : (T.flatMap (layer_offers data)).foldl (process_offer data)
      ((T.flatMap (layer_offers data)).foldl (process_offer data)
        (initial_queue data)) =
      (T.flatMap (layer_offers data)).foldl (process_offer data)
        (initial_queue data) := by
    rw [← hSoff]
    exact hfix1
  have hexec : Execute { data with tiles := List.replicate N T } = Execute data := by
    rw [Execute_eq_offers, Execute_eq_offers]
    congr 1
    show ((List.replicate N T).flatMap fun t => t.flatMap (layer_offers data)).foldl
        (process_offer data) (initial_queue data) =
      (offers data).foldl (process_offer data) (initial_queue data)
    rw [foldl_flatMap]
    refine (foldl_replicate_of_fix (f := fun acc t =>
      (t.flatMap (layer_offers data)).foldl (process_offer data) acc)
      (a := T) (b := initial_queue data) hfixT hN).trans ?_
    show (T.flatMap (layer_offers data)).foldl (process_offer data)
        (initial_queue data) =
      (offers data).foldl (process_offer data) (initial_queue data)
    rw [hSoff]
  show OnOK (Execute { data with tiles := List.replicate N T }) = OnOK (Execute data)
  rw [hexec]

theorem C4_idempotent_tiles_witness :
    1 ≤ 2 ∧ c4AmQuery.tiles = [c4AmTile] ∧ c4AmQuery.dedupe = true ∧
      ValidQuery c4AmQuery ∧
      ((offers c4AmQuery).Pairwise fun o1 o2 =>
        dupCand c4AmQuery o1 o2 = false ∧ dupCand c4AmQuery o2 o1 = false) ∧
      vtquery { c4AmQuery with tiles := List.replicate 2 c4AmTile } =
        vtquery c4AmQuery :=
  ⟨by decide, by decide, by decide, by decide, by decide,
    C4_idempotent_tiles c4AmQuery c4AmTile 2 (by decide) (by decide) (by decide)
      (by decide) (by decide)⟩

end VectorTileQuery
